import Mathlib

/-!
Verification development for the myinspectra case-processing pipeline.

The definitions below are a shallow embedding of the backend code:
  - backend/myinspectra/utils.py   (DICOM numeric steps, TempFileManager)
  - backend/myinspectra/views.py   (prediction client, fan-out, aggregation,
                                    overlay selection, per-profile workflow,
                                    two-profile pipeline)
  - backend/myinspectra/models.py  (row types and their unique keys)

Conventions of the embedding:
  - numpy float arrays are lists of rationals; Python floor division is
    modeled by the rational floor;
  - JSON values are a small inductive type; Python dicts are association
    lists in insertion order, with dict assignment replacing in place;
  - the database is a record of row lists; Django update_or_create is an
    upsert that updates the matching rows or appends a fresh row;
  - files are either native (storage exposes a filesystem path) or remote
    (TempFileManager downloads them to a fresh temp file and records it);
  - the local filesystem is a list of existing paths;
  - the external compositor (HeatmapOverlayProcessor.process_from_files) is
    opaque and is represented by its observable behavior: raising, returning
    None, or returning a result with an optional map of individual overlays;
  - network calls are represented by their outcome (network failure, or a
    response with an ok/error status and an optional JSON body); remote blob
    downloads and embedded-image decoding are assumed to succeed, and the
    per-row metadata fields (width/height/file size) of persisted rows are
    elided, since no property below depends on them.
-/

namespace MyInspectra

abbrev Path := String

/-! ## DICOM numeric steps (backend/myinspectra/utils.py) -/

/-- Python floor division (the // operator) on rationals: the floor of the
true quotient, as used in apply_window for width // 2. -/
def pyFloorDiv (a b : ℚ) : ℚ := ((⌊a / b⌋ : ℤ) : ℚ)

/-- A WindowCenter / WindowWidth DICOM tag value: either a scalar or a
multi-value list; apply_window uses the first element of a list. A DICOM
multi-value is non-empty, so the head is explicit. -/
inductive DicomTagValue where
  | scalar (q : ℚ)
  | multi (head : ℚ) (tail : List ℚ)
deriving Repr, DecidableEq

/-- The scalar actually used by apply_window: the value itself, or the first
element of a multi-value (utils.py lines 50-53). -/
def DicomTagValue.first : DicomTagValue → ℚ
  | .scalar q => q
  | .multi h _ => h

/-- Model of apply_window (utils.py lines 46-60): with c the center scalar and
w the width scalar, min_value = c - w // 2 and max_value = c + w // 2; the
array is clamped below at min_value and then clamped above at max_value, by
the two masked assignments of the source. -/
def apply_window (image : List ℚ) (center width : DicomTagValue) : List ℚ :=
  let c := center.first
  let w := width.first
  let minValue := c - pyFloorDiv w 2
  let maxValue := c + pyFloorDiv w 2
  let clampedBelow := image.map (fun x => if x < minValue then minValue else x)
  clampedBelow.map (fun x => if x > maxValue then maxValue else x)

/-- Model of the normalization step of dcm_to_numpy (utils.py lines 81-91):
when the array minimum is strictly below its maximum, each value is rescaled
to (v - min) / (max - min) * 255 and cast to uint8; otherwise the whole array
is zeroed to avoid dividing by zero. The uint8 cast is modeled as the integer
floor: truncation and floor agree on the non-negative values produced here,
and the range theorem below shows the cast never wraps. -/
def normalize_step (image : List ℚ) : List ℤ :=
  match image with
  | [] => []
  | x :: xs =>
      let imin := xs.foldl min x
      let imax := xs.foldl max x
      if imin < imax then
        (x :: xs).map (fun v => ⌊(v - imin) / (imax - imin) * 255⌋)
      else
        (x :: xs).map (fun _ => 0)

/-! ## JSON values and the prediction client (views.py lines 56-64) -/

/-- JSON values as returned by the inference endpoints. -/
inductive JVal where
  | num (q : ℚ)
  | str (s : String)
  | arr (xs : List JVal)
  | dict (fields : List (String × JVal))
deriving Repr

/-- Top-level key lookup in a JSON dict; none on any other JSON shape. -/
def JVal.lookupKey : JVal → String → Option JVal
  | .dict fields, k => (fields.find? (fun kv => kv.1 == k)).map (fun kv => kv.2)
  | _, _ => none

/-- The orchestrator check at views.py line 185:
isinstance(res, dict) and the string error is one of its top-level keys. -/
def JVal.isErrorDict : JVal → Bool
  | .dict fields => fields.any (fun kv => kv.1 == "error")
  | _ => false

/-- Rendering of a JSON value into an error-message fragment, standing in for
the Python str() applied by the f-string interpolation. -/
def pyStr : JVal → String
  | .num q => toString q
  | .str s => s
  | .arr _ => "<arr>"
  | .dict _ => "<dict>"

/-- Outcome of one HTTP POST to an endpoint: either a transport-level failure,
or a response with an ok (2xx) status flag and a body that parses as JSON or
not. requests follows redirects, so the final status is classified as ok or
as a 4xx/5xx error, which is what raise_for_status tests. -/
inductive HttpOutcome where
  | networkFailure (msg : String)
  | response (ok : Bool) (jsonBody : Option JVal)

/-- Model of call_prediction_api (views.py lines 56-64): the requests.post /
raise_for_status / response.json() chain wrapped in a catch-all except that
turns every failure into the error dict written by the source. The
function is total: no outcome escapes as an exception. -/
def call_prediction_api (url : String) (outcome : HttpOutcome) : JVal :=
  match outcome with
  | .networkFailure msg => .dict [("error", .str msg)]
  | .response ok body =>
      if ok then
        match body with
        | some j => j
        | none => .dict [("error", .str ("Invalid JSON response from " ++ url))]
      else .dict [("error", .str ("HTTP status error from " ++ url))]

/-- The error value stored under the error key of an error dict (empty
string when absent, which cannot happen for values built by the client). -/
def errorValueOf (j : JVal) : JVal :=
  match j.lookupKey "error" with
  | some e => e
  | none => .str ""

/-- The message appended by the fan-out loop at views.py line 186. -/
def apiErrorMsg (name : String) (res : JVal) : String :=
  "API Error [" ++ name ++ "]: " ++ pyStr (errorValueOf res)

/-- Accumulated state of the fan-out loop: the successful responses keyed by
service type, and the recorded error messages. -/
structure FanOutResult where
  results : List (String × JVal)
  errors : List String
deriving Repr

/-- One step per endpoint of the collection loop at views.py lines 181-194:
an error-dict result is recorded in the error list, any other response is
kept in the results map. Each call is independent of its siblings; the
completion order of the concurrent futures does not affect the collected
multiset, and the model collects in list order. -/
def fanOutGo : List (String × String) → (String → HttpOutcome) → FanOutResult → FanOutResult
  | [], _, acc => acc
  | (name, url) :: rest, outcomes, acc =>
      let res := call_prediction_api url (outcomes name)
      if res.isErrorDict then
        fanOutGo rest outcomes { acc with errors := acc.errors ++ [apiErrorMsg name res] }
      else
        fanOutGo rest outcomes { acc with results := acc.results ++ [(name, res)] }

/-- Model of the fan-out of process_profile_workflow (views.py lines 160-194):
one call per active endpoint, collecting successes and recorded errors. -/
def fanOut (endpoints : List (String × String)) (outcomes : String → HttpOutcome) :
    FanOutResult :=
  fanOutGo endpoints outcomes ⟨[], []⟩

/-- The successful entries the fan-out collects (characterization used by the
lemmas below). -/
def fanResults (endpoints : List (String × String)) (outcomes : String → HttpOutcome) :
    List (String × JVal) :=
  (endpoints.filter
      (fun e => !(call_prediction_api e.2 (outcomes e.1)).isErrorDict)).map
    (fun e => (e.1, call_prediction_api e.2 (outcomes e.1)))

/-- The error messages the fan-out records (characterization used by the
lemmas below). -/
def fanErrors (endpoints : List (String × String)) (outcomes : String → HttpOutcome) :
    List String :=
  (endpoints.filter
      (fun e => (call_prediction_api e.2 (outcomes e.1)).isErrorDict)).map
    (fun e => apiErrorMsg e.1 (call_prediction_api e.2 (outcomes e.1)))

/-! ## Database rows (backend/myinspectra/models.py) -/

/-- A stored file reference: native storage exposes a filesystem path through
the path attribute; remote (S3-like) storage raises NotImplementedError there
and TempFileManager downloads the content to a temp file instead. -/
inductive FileRef where
  | native (p : Path)
  | remote (name : String)
deriving Repr, DecidableEq

/-- A Prediction row (models.py lines 137-157): unique key
(case_request, disease_name, model_version). -/
structure PredRow where
  case_id : Nat
  disease_name : String
  model_version : String
  prediction_value : ℚ
  balanced_score : ℚ
  thresholded_percentage : String
deriving Repr, DecidableEq

/-- The unique key of a Prediction row. -/
def predRowKey (r : PredRow) : Nat × String × String :=
  (r.case_id, r.disease_name, r.model_version)

/-- A Heatmap row (models.py lines 160-178), owned one-to-one by a
Prediction; identified here by the owning prediction's key. The image field
is optional to model a falsy heatmap_image. -/
structure HeatmapRow where
  case_id : Nat
  disease_name : String
  model_version : String
  heatmap_image : Option FileRef
deriving Repr, DecidableEq

/-- A Segment row (models.py lines 181-201), keyed by
(case_request, class_name, model_version) through update_or_create. -/
structure SegRow where
  case_id : Nat
  class_name : String
  model_version : String
  segment_image : Option FileRef
deriving Repr, DecidableEq

/-- An OverlayHeatmap row (models.py lines 204-223): unique key
(case_request, version); non-key metadata fields elided. -/
structure OverlayRow where
  case_id : Nat
  version : String
deriving Repr, DecidableEq

/-- A ProcessedHeatmap row: key (case_request, disease_name, model_version);
non-key metadata fields elided. -/
structure ProcessedRow where
  case_id : Nat
  disease_name : String
  model_version : String
deriving Repr, DecidableEq

/-- The persistent store: one list of rows per model class. -/
structure DB where
  predictions : List PredRow
  heatmaps : List HeatmapRow
  segments : List SegRow
  overlays : List OverlayRow
  processed : List ProcessedRow
deriving Repr, DecidableEq

/-- A CaseRequest's three monotonic flags (models.py lines 86-88). -/
structure CaseRow where
  success_upload : Bool
  success_process : Bool
  success_response : Bool
deriving Repr, DecidableEq

/-! ## Result aggregation (views.py lines 66-137) -/

/-- Does a Prediction row match the key (c, d, v)? This is the filter of
Prediction.objects.update_or_create(case_request=c, disease_name=d,
model_version=v, ...). -/
def predKeyMatches (c : Nat) (d v : String) (r : PredRow) : Bool :=
  r.case_id == c && r.disease_name == d && r.model_version == v

/-- The field update applied to a matched Prediction row: the defaults dict
of update_or_create overwrites the three value fields, leaving the key
fields untouched. -/
def applyPredUpdate (pv bs : ℚ) (tp : String) (r : PredRow) : PredRow :=
  { r with prediction_value := pv, balanced_score := bs, thresholded_percentage := tp }

/-- The row transformation of the update branch: overwrite the value fields
of the rows matching the key, leave every other row unchanged. -/
def updIfMatch (c : Nat) (d v : String) (pv bs : ℚ) (tp : String) (r : PredRow) : PredRow :=
  if predKeyMatches c d v r then applyPredUpdate pv bs tp r else r

/-- Django update_or_create on Prediction: update the row matching the key
(overwriting its value fields), or append a fresh row when none matches. -/
def upsertPrediction (ps : List PredRow) (c : Nat) (d v : String) (pv bs : ℚ)
    (tp : String) : List PredRow :=
  if ps.any (predKeyMatches c d v) then
    ps.map (updIfMatch c d v pv bs tp)
  else
    ps ++ [⟨c, d, v, pv, bs, tp⟩]

/-- values.get(key, default) for a numeric field of a per-disease values
dict. -/
def jGetNumD (j : JVal) (k : String) (d : ℚ) : ℚ :=
  match j.lookupKey k with
  | some (.num q) => q
  | _ => d

/-- values.get(key, default) for a string field of a per-disease values
dict. -/
def jGetStrD (j : JVal) (k : String) (d : String) : String :=
  match j.lookupKey k with
  | some (.str s) => s
  | _ => d

/-- Does a Heatmap row match the key of its owning prediction? -/
def heatmapKeyMatches (c : Nat) (d v : String) (r : HeatmapRow) : Bool :=
  r.case_id == c && r.disease_name == d && r.model_version == v

/-- Heatmap.objects.update_or_create keyed by the owning prediction, followed
by saving the re-encoded image under a version-qualified name. -/
def upsertHeatmap (hs : List HeatmapRow) (c : Nat) (d v : String) (ref : FileRef) :
    List HeatmapRow :=
  if hs.any (heatmapKeyMatches c d v) then
    hs.map (fun r => if heatmapKeyMatches c d v r then { r with heatmap_image := some ref } else r)
  else
    hs ++ [⟨c, d, v, some ref⟩]

/-- Model of save_heatmap (views.py lines 66-89): an empty payload is
skipped; otherwise the decoded image is re-encoded and upserted on the
prediction's Heatmap under heatmaps/version/heatmap.png. Decoding of a
non-empty payload is assumed to succeed (a failure is logged and skipped). -/
def save_heatmap (hs : List HeatmapRow) (c : Nat) (d v : String) (payload : String) :
    List HeatmapRow :=
  if payload == "" then hs
  else upsertHeatmap hs c d v (.native ("heatmaps/" ++ v ++ "/heatmap.png"))

/-- Aggregation of one disease entry of a classification result dict
(views.py lines 94-105): upsert the Prediction row with the source's field
defaults, then save its heatmap payload (empty default). -/
def aggregatePredItem (c : Nat) (v : String) (db : DB) (dv : String × JVal) : DB :=
  let newPreds :=
    upsertPrediction db.predictions c dv.1 v
      (jGetNumD dv.2 "prediction" 0)
      (jGetNumD dv.2 "balanced_score" 0)
      (jGetStrD dv.2 "thresholded" "0%")
  let db1 := { db with predictions := newPreds }
  { db1 with heatmaps := save_heatmap db1.heatmaps c dv.1 v (jGetStrD dv.2 "heatmap" "") }

/-- Model of process_prediction_result (views.py lines 91-105): aggregate
each disease of the result dict in order. A non-dict result is a no-op, as
is the falsy-guarded empty dict. -/
def process_prediction_result (db : DB) (c : Nat) (result_data : JVal) (v : String) : DB :=
  match result_data with
  | .dict items => items.foldl (aggregatePredItem c v) db
  | _ => db

/-- The Prediction-table effect of aggregating one disease entry. -/
def predUpsertStep (c : Nat) (v : String) (ps : List PredRow) (dv : String × JVal) :
    List PredRow :=
  upsertPrediction ps c dv.1 v
    (jGetNumD dv.2 "prediction" 0)
    (jGetNumD dv.2 "balanced_score" 0)
    (jGetStrD dv.2 "thresholded" "0%")

/-- The Prediction-table effect of aggregating a whole classification result
dict: the projection of process_prediction_result on the predictions list. -/
def predUpsertFold (ps : List PredRow) (c : Nat) (items : List (String × JVal))
    (v : String) : List PredRow :=
  items.foldl (predUpsertStep c v) ps

/-- Does a Segment row match the key (c, class, v)? -/
def segKeyMatches (c : Nat) (cls v : String) (r : SegRow) : Bool :=
  r.case_id == c && r.class_name == cls && r.model_version == v

/-- Segment.objects.update_or_create keyed (case, class, version), with the
re-encoded mask saved under a version-qualified path. -/
def upsertSegment (ss : List SegRow) (c : Nat) (cls v : String) (ref : FileRef) :
    List SegRow :=
  if ss.any (segKeyMatches c cls v) then
    ss.map (fun r => if segKeyMatches c cls v r then { r with segment_image := some ref } else r)
  else
    ss ++ [⟨c, cls, v, some ref⟩]

/-- The version-qualified storage path of a saved segment
(views.py lines 132-135). -/
def segStorePath (v cls : String) : Path :=
  "segments/" ++ v ++ "/" ++ (cls.replace " " "_").toLower ++ "_segment.png"

/-- Model of process_segmentation_result (views.py lines 107-137): when the
result dict has a heatmap dict, each class with a non-empty string payload
is decoded and upserted as a Segment; empty payloads are skipped and a
payload whose decoding would fail (modeled: a non-string payload) is skipped
without aborting the remaining classes. -/
def process_segmentation_result (db : DB) (c : Nat) (result_data : JVal) (v : String) : DB :=
  match result_data.lookupKey "heatmap" with
  | some (.dict classes) =>
      classes.foldl
        (fun db cp =>
          match cp.2 with
          | .str s =>
              if s == "" then db
              else { db with segments := upsertSegment db.segments c cp.1 v (.native (segStorePath v cp.1)) }
          | _ => db)
        db
  | _ => db

/-- Dispatch of one service's response in step 2 of process_profile_workflow
(views.py lines 196-218): nothing is aggregated when the fan-out recorded no
successful response for the service or when the response has no result
key. -/
def step2_service (db : DB) (c : Nat) (v : String) (isSeg : Bool) (resp : Option JVal) : DB :=
  match resp with
  | none => db
  | some j =>
      match j.lookupKey "result" with
      | none => db
      | some rd =>
          if isSeg then process_segmentation_result db c rd v
          else process_prediction_result db c rd v

/-- Association-list lookup with Python-dict semantics (first, and only,
binding of the key). -/
def dlookup {α : Type} : List (String × α) → String → Option α
  | [], _ => none
  | kv :: rest, k => if kv.1 == k then some kv.2 else dlookup rest k

/-- Step 2 of process_profile_workflow: the six fixed service dispatches of
views.py lines 198-214, in source order. -/
def step2 (db : DB) (c : Nat) (v : String) (results : List (String × JVal)) : DB :=
  let db1 := step2_service db c v false (dlookup results "abnormality")
  let db2 := step2_service db1 c v false (dlookup results "tuberculosis")
  let db3 := step2_service db2 c v false (dlookup results "pneumothorax")
  let db4 := step2_service db3 c v true (dlookup results "lung_segmentation")
  let db5 := step2_service db4 c v true (dlookup results "pleural_effusion_segmentation")
  step2_service db5 c v true (dlookup results "pneumothorax_segmentation")

/-! ## TempFileManager (utils.py lines 118-165) and the filesystem -/

/-- The combined state threaded through the overlay phase: the local
filesystem (the set of existing paths, as a list), the temp files recorded by
the TempFileManager of the current workflow invocation, and a counter
generating fresh temp-file names. -/
structure World where
  fs : List Path
  tempFiles : List Path
  tempCounter : Nat
deriving Repr, DecidableEq

/-- The fresh name chosen by tempfile.NamedTemporaryFile for the n-th temp
file of an invocation (the original extension suffix is elided). -/
def freshTempPath (n : Nat) : Path := "/tmp/tmp" ++ toString n ++ ".png"

/-- Model of TempFileManager.get_path (utils.py lines 123-156): a falsy file
yields None; native storage returns the file's own path without recording
anything; remote storage streams the blob to a fresh temp file, records it,
and returns the temp path. The download is assumed to succeed. -/
def getPath (w : World) (f : Option FileRef) : World × Option Path :=
  match f with
  | none => (w, none)
  | some (.native p) => (w, some p)
  | some (.remote _) =>
      let p := freshTempPath w.tempCounter
      ({ fs := w.fs ++ [p], tempFiles := w.tempFiles ++ [p], tempCounter := w.tempCounter + 1 },
       some p)

/-- Model of TempFileManager.cleanup (utils.py lines 158-165): delete each
recorded path in order, skipping the ones that no longer exist. -/
def cleanupFiles : List Path → List Path → List Path
  | [], fs => fs
  | p :: rest, fs =>
      cleanupFiles rest (if fs.contains p then fs.filter (fun q => q != p) else fs)

/-! ## Overlay selection (views.py lines 238-302) -/

/-- The per-version view of one Prediction row as the selector consumes it:
its fields joined with the image of its Heatmap row when that row exists and
its image is truthy (the hasattr chain of views.py line 259). -/
structure SelPred where
  disease_name : String
  balanced_score : ℚ
  thresholded_percentage : String
  heatmap_image : Option FileRef
deriving Repr, DecidableEq

/-- The per-version view of one Segment row as the selector consumes it. -/
structure SelSeg where
  class_name : String
  segment_image : Option FileRef
deriving Repr, DecidableEq

/-- Python dict assignment on an association list: replace the binding in
place when the key is present, append otherwise. -/
def dinsert {α : Type} : List (String × α) → String → α → List (String × α)
  | [], k, v => [(k, v)]
  | kv :: rest, k, v =>
      if kv.1 == k then (k, v) :: rest else kv :: dinsert rest k v

/-- The low set of views.py lines 246-249: every disease whose thresholded
percentage is the sentinel Low. -/
def lowSet (preds : List SelPred) : List String :=
  (preds.filter (fun p => p.thresholded_percentage == "Low")).map (fun p => p.disease_name)

/-- The mutable state of the selector loops: the temp world plus the maps and
mask paths being accumulated. -/
structure OvState where
  w : World
  heatmap_paths : List (String × Path)
  confidence_scores : List (String × ℚ)
  heatmap_settings : List (String × String)
  lung_mask_path : Option Path
  lung_convex_mask_path : Option Path
  fallback_heatmap_paths : List (String × Path)
deriving Repr, DecidableEq

/-- One iteration of the prediction loop (views.py lines 251-265): skip low
diseases and Cardiomegaly; for a prediction with an attached truthy heatmap
whose path resolves, record its path, balanced score and configured
setting. -/
def predStep (low : List String) (gs : String → String) (st : OvState) (p : SelPred) :
    OvState :=
  if low.contains p.disease_name then st
  else if p.disease_name == "Cardiomegaly" then st
  else
    match p.heatmap_image with
    | none => st
    | some f =>
        match getPath st.w (some f) with
        | (w2, none) => { st with w := w2 }
        | (w2, some path) =>
            { st with
              w := w2,
              heatmap_paths := dinsert st.heatmap_paths p.disease_name path,
              confidence_scores := dinsert st.confidence_scores p.disease_name p.balanced_score,
              heatmap_settings := dinsert st.heatmap_settings p.disease_name (gs p.disease_name) }

/-- The state produced by the primary Pneumothorax-mask assignment of
views.py lines 286-287, before the fallback lookup. -/
def pneuBase (gs : String → String) (st : OvState) (w2 : World) (path : Path) : OvState :=
  { st with
    w := w2,
    heatmap_paths := dinsert st.heatmap_paths "Pneumothorax" path,
    heatmap_settings := dinsert st.heatmap_settings "Pneumothorax" (gs "Pneumothorax") }

/-- The state produced by the suffixed-key assignments of views.py lines
294-295 for an ordinary segmentation class. -/
def segBase (gs : String → String) (st : OvState) (w2 : World) (cls : String)
    (path : Path) : OvState :=
  { st with
    w := w2,
    heatmap_paths := dinsert st.heatmap_paths (cls ++ " Segmentation") path,
    heatmap_settings := dinsert st.heatmap_settings (cls ++ " Segmentation") (gs cls) }

/-- One iteration of the segment loop (views.py lines 273-298): skip classes
in the low set; Lung and Lung Convex set the two mask paths; a Pneumothorax
mask becomes the primary artifact under key Pneumothorax and moves the
displaced classifier heatmap (when one exists) to the fallback map; every
other class is recorded under the suffixed segmentation key, inheriting the
balanced score of a same-named prediction when one exists. -/
def segStep (low : List String) (gs : String → String) (preds : List SelPred)
    (st : OvState) (s : SelSeg) : OvState :=
  if low.contains s.class_name then st
  else if s.class_name == "Lung" then
    match getPath st.w s.segment_image with
    | (w2, mp) => { st with w := w2, lung_mask_path := mp }
  else if s.class_name == "Lung Convex" then
    match getPath st.w s.segment_image with
    | (w2, mp) => { st with w := w2, lung_convex_mask_path := mp }
  else
    match s.segment_image with
    | none => st
    | some f =>
        match getPath st.w (some f) with
        | (w2, none) => { st with w := w2 }
        | (w2, some path) =>
            if s.class_name == "Pneumothorax" then
              match preds.find? (fun p => p.disease_name == "Pneumothorax") with
              | none => pneuBase gs st w2 path
              | some pr =>
                  match pr.heatmap_image with
                  | none => pneuBase gs st w2 path
                  | some hf =>
                      match getPath w2 (some hf) with
                      | (w3, none) => { pneuBase gs st w2 path with w := w3 }
                      | (w3, some fb) =>
                          { pneuBase gs st w2 path with
                            w := w3,
                            fallback_heatmap_paths :=
                              dinsert st.fallback_heatmap_paths "Pneumothorax" fb }
            else
              match preds.find? (fun p => p.disease_name == s.class_name) with
              | none => segBase gs st w2 s.class_name path
              | some pr =>
                  { segBase gs st w2 s.class_name path with
                    confidence_scores :=
                      dinsert st.confidence_scores (s.class_name ++ " Segmentation")
                        pr.balanced_score }

/-- The overlay selector: the two loops of views.py lines 238-298 run over
this version's predictions and segments, starting from empty maps. -/
def selectOverlayArtifacts (gs : String → String) (w0 : World)
    (preds : List SelPred) (segs : List SelSeg) : OvState :=
  let low := lowSet preds
  let st0 : OvState := ⟨w0, [], [], [], none, none, []⟩
  let st1 := preds.foldl (predStep low gs) st0
  segs.foldl (segStep low gs preds) st1

/-- The version-filtered prediction view (views.py line 244), joined with the
owned heatmap rows. -/
def viewPreds (db : DB) (c : Nat) (v : String) : List SelPred :=
  (db.predictions.filter (fun p => p.case_id == c && p.model_version == v)).map
    (fun p =>
      { disease_name := p.disease_name,
        balanced_score := p.balanced_score,
        thresholded_percentage := p.thresholded_percentage,
        heatmap_image :=
          (db.heatmaps.find? (fun h =>
            h.case_id == c && h.disease_name == p.disease_name && h.model_version == v)).bind
            (fun h => h.heatmap_image) })

/-- The version-filtered segment view (views.py line 268). -/
def viewSegs (db : DB) (c : Nat) (v : String) : List SelSeg :=
  (db.segments.filter (fun s => s.case_id == c && s.model_version == v)).map
    (fun s => ⟨s.class_name, s.segment_image⟩)

/-! ## The overlay phase of process_profile_workflow (views.py lines 221-401) -/

/-- Observable behavior of the opaque external compositor
processor.process_from_files: raise, return None, or return a result whose
individual_overlays map (keyed by disease) may be present or absent. -/
inductive CompBehavior where
  | throws (msg : String)
  | retNone
  | retResult (individual : Option (List String))
deriving Repr, DecidableEq

/-- OverlayHeatmap.objects.update_or_create keyed (case, version); the non-key
metadata update of an existing row is elided. -/
def upsertOverlay (rows : List OverlayRow) (c : Nat) (v : String) : List OverlayRow :=
  if rows.any (fun r => r.case_id == c && r.version == v) then rows
  else rows ++ [⟨c, v⟩]

/-- ProcessedHeatmap.objects.update_or_create keyed (case, disease, version);
the non-key metadata update of an existing row is elided. -/
def upsertProcessed (rows : List ProcessedRow) (c : Nat) (d v : String) : List ProcessedRow :=
  if rows.any (fun r => r.case_id == c && r.disease_name == d && r.model_version == v) then rows
  else rows ++ [⟨c, d, v⟩]

/-- What the body of the try of views.py lines 238-389 leaves behind on each
of its exit paths, before the finally clause runs: the returned success flag,
the error list (already extended by the outer except when the body raised),
the database, and the filesystem and temp-manager state to which cleanup is
then applied. -/
structure OverlayCoreOut where
  success : Bool
  errors : List String
  db : DB
  fsPre : List Path
  w : World
deriving Repr, DecidableEq

/-- The world after tempfile.NamedTemporaryFile has created the compositor
output file (views.py lines 305-306): the fresh path exists on disk but is
not recorded by the TempFileManager. -/
def compOutWorld (w1 : World) : World :=
  { w1 with fs := w1.fs ++ [freshTempPath w1.tempCounter], tempCounter := w1.tempCounter + 1 }

/-- The database writes of the compositor-success branch (views.py lines
337-387): upsert the OverlayHeatmap row for (case, version), then one
ProcessedHeatmap row per individual overlay when the result carries them. -/
def overlaySuccessDB (db : DB) (c : Nat) (v : String) (individual : Option (List String)) :
    DB :=
  match individual with
  | some ds =>
      ds.foldl (fun acc d => { acc with processed := upsertProcessed acc.processed c d v })
        { db with overlays := upsertOverlay db.overlays c v }
  | none => { db with overlays := upsertOverlay db.overlays c v }

/-- The overlay phase body (views.py lines 236-401): select artifacts,
resolve the raw-image path, and — only when both a lung mask path and a raw
image path are available — create the compositor output temp file (not
recorded by the manager), invoke the compositor, and on a non-None result
persist the OverlayHeatmap row, delete the output file, and persist one
ProcessedHeatmap row per individual overlay, returning True; every other path
returns False, and a compositor exception is caught by the outer except which
appends its message to the error list. Media-storage writes target the blob
store and are not part of the local filesystem. -/
def overlayCore (c : Nat) (v pn : String) (db : DB) (fs0 : List Path)
    (raw : Option FileRef) (comp : CompBehavior) (gs : String → String)
    (errors0 : List String) : OverlayCoreOut :=
  match (selectOverlayArtifacts gs ⟨fs0, [], 0⟩ (viewPreds db c v)
          (viewSegs db c v)).lung_mask_path,
        getPath (selectOverlayArtifacts gs ⟨fs0, [], 0⟩ (viewPreds db c v)
          (viewSegs db c v)).w raw with
  | some _, (w1, some _) =>
      (match comp with
       | .throws msg =>
           ⟨false,
            errors0 ++ ["Error in overlay generation for " ++ pn ++ ": " ++ msg],
            db, (compOutWorld w1).fs, compOutWorld w1⟩
       | .retNone => ⟨false, errors0, db, (compOutWorld w1).fs, compOutWorld w1⟩
       | .retResult individual =>
           ⟨true, errors0, overlaySuccessDB db c v individual,
            (compOutWorld w1).fs.filter (fun q => q != freshTempPath w1.tempCounter),
            compOutWorld w1⟩)
  | _, (w1, _) => ⟨false, errors0, db, w1.fs, w1⟩

/-- The observable outcome of the overlay phase, after the finally clause:
the recorded field exposes the temp files the manager had recorded when
cleanup ran. -/
structure OverlayOutput where
  success : Bool
  errors : List String
  db : DB
  fs : List Path
  recorded : List Path
deriving Repr, DecidableEq

/-- The overlay phase with its try/finally: whatever exit path the body
takes, TempFileManager.cleanup runs on the filesystem the body left
behind. -/
def overlayPhase (c : Nat) (v pn : String) (db : DB) (fs0 : List Path)
    (raw : Option FileRef) (comp : CompBehavior) (gs : String → String)
    (errors0 : List String) : OverlayOutput :=
  let r := overlayCore c v pn db fs0 raw comp gs errors0
  ⟨r.success, r.errors, r.db, cleanupFiles r.w.tempFiles r.fsPre, r.w.tempFiles⟩

/-! ## Per-profile workflow and two-profile pipeline (views.py lines 142-401,
404-510, 805-921) -/

/-- The version key of a profile (views.py lines 156-158): v4.5.0 when the
profile name contains that substring, else v3.5.1. -/
def versionKey (profileName : String) : String :=
  if (profileName.splitOn "v4.5.0").length > 1 then "v4.5.0" else "v3.5.1"

/-- The outcome of one process_profile_workflow invocation. -/
structure WorkflowResult where
  success : Bool
  errors : List String
  db : DB
  fs : List Path
  recorded : List Path
deriving Repr, DecidableEq

/-- Model of process_profile_workflow (views.py lines 142-401): resolve the
version key, fan out to the profile's active endpoints, aggregate the
successful responses (step 2), then run the overlay phase, accumulating the
fan-out errors. The step-2 aggregation is modeled total: a malformed
response body that would raise inside the step-2 try is modeled as skipped
rather than as one appended error, and no claim below depends on that
path. -/
def process_profile_workflow (c : Nat) (pname : String)
    (endpoints : List (String × String)) (outcomes : String → HttpOutcome)
    (db : DB) (fs : List Path) (raw : Option FileRef) (comp : CompBehavior)
    (gs : String → String) : WorkflowResult :=
  let v := versionKey pname
  let fo := fanOut endpoints outcomes
  let db1 := step2 db c v fo.results
  let op := overlayPhase c v pname db1 fs raw comp gs fo.errors
  ⟨op.success, op.errors, op.db, op.fs, op.recorded⟩

/-- The per-profile inputs of one pipeline run: the profile's name, its
active endpoints, the per-endpoint network outcomes, and the compositor
behavior for this profile's overlay. -/
structure ProfileRun where
  name : String
  endpoints : List (String × String)
  outcomes : String → HttpOutcome
  comp : CompBehavior

/-- Model of the pipeline tail of upload_test / api_upload (views.py lines
497-510 and 896-911): run the workflow once per profile (v3 then v4,
threading the store), prefix and accumulate their error lists, and set the
case's success_process flag to the conjunction of the two outcomes. -/
def runPipeline (c : Nat) (case0 : CaseRow) (db : DB) (fs : List Path)
    (raw : Option FileRef) (gs : String → String) (p3 p4 : ProfileRun) :
    CaseRow × WorkflowResult × WorkflowResult × List String :=
  let r3 := process_profile_workflow c p3.name p3.endpoints p3.outcomes db fs raw p3.comp gs
  let r4 := process_profile_workflow c p4.name p4.endpoints p4.outcomes r3.db r3.fs raw p4.comp gs
  let allErrors :=
    r3.errors.map (fun e => "[v3.5.1] " ++ e) ++ r4.errors.map (fun e => "[v4.5.0] " ++ e)
  ({ case0 with success_process := r3.success && r4.success }, r3, r4, allErrors)

/-- The list of per-profile workflow success outcomes of one pipeline run,
in run order. -/
def pipelineProfileSuccesses (c : Nat) (db : DB) (fs : List Path)
    (raw : Option FileRef) (gs : String → String) (p3 p4 : ProfileRun) : List Bool :=
  let r3 := process_profile_workflow c p3.name p3.endpoints p3.outcomes db fs raw p3.comp gs
  let r4 := process_profile_workflow c p4.name p4.endpoints p4.outcomes r3.db r3.fs raw p4.comp gs
  [r3.success, r4.success]

/-! ## Lemmas about the numeric steps -/

theorem pyFloorDiv_le (a b : ℚ) : pyFloorDiv a b ≤ a / b := by
  unfold pyFloorDiv
  exact Int.floor_le _

theorem pyFloorDiv_nonneg {a b : ℚ} (ha : 0 ≤ a) (hb : 0 ≤ b) : 0 ≤ pyFloorDiv a b := by
  unfold pyFloorDiv
  have h : (0 : ℚ) ≤ a / b := div_nonneg ha hb
  exact_mod_cast Int.floor_nonneg.mpr h

theorem foldl_min_le_init (xs : List ℚ) : ∀ x : ℚ, xs.foldl min x ≤ x := by
  induction xs with
  | nil => intro x; simp
  | cons a l ih =>
      intro x
      calc l.foldl min (min x a) ≤ min x a := ih (min x a)
        _ ≤ x := min_le_left _ _

theorem foldl_min_le_mem (xs : List ℚ) : ∀ (x v : ℚ), v ∈ xs → xs.foldl min x ≤ v := by
  induction xs with
  | nil => intro x v hv; simp at hv
  | cons a l ih =>
      intro x v hv
      rcases List.mem_cons.mp hv with h | h
      · rw [h]
        calc (a :: l).foldl min x = l.foldl min (min x a) := rfl
          _ ≤ min x a := foldl_min_le_init l (min x a)
          _ ≤ a := min_le_right _ _
      · exact ih (min x a) v h

theorem foldl_min_le (x : ℚ) (xs : List ℚ) : ∀ v ∈ x :: xs, xs.foldl min x ≤ v := by
  intro v hv
  rcases List.mem_cons.mp hv with h | h
  · rw [h]; exact foldl_min_le_init xs x
  · exact foldl_min_le_mem xs x v h

theorem le_foldl_max_init (xs : List ℚ) : ∀ x : ℚ, x ≤ xs.foldl max x := by
  induction xs with
  | nil => intro x; simp
  | cons a l ih =>
      intro x
      calc x ≤ max x a := le_max_left _ _
        _ ≤ l.foldl max (max x a) := ih (max x a)

theorem le_foldl_max_mem (xs : List ℚ) : ∀ (x v : ℚ), v ∈ xs → v ≤ xs.foldl max x := by
  induction xs with
  | nil => intro x v hv; simp at hv
  | cons a l ih =>
      intro x v hv
      rcases List.mem_cons.mp hv with h | h
      · rw [h]
        calc a ≤ max x a := le_max_right _ _
          _ ≤ l.foldl max (max x a) := le_foldl_max_init l (max x a)
          _ = (a :: l).foldl max x := rfl
      · exact ih (max x a) v h

theorem le_foldl_max (x : ℚ) (xs : List ℚ) : ∀ v ∈ x :: xs, v ≤ xs.foldl max x := by
  intro v hv
  rcases List.mem_cons.mp hv with h | h
  · rw [h]; exact le_foldl_max_init xs x
  · exact le_foldl_max_mem xs x v h

/-! ## Claim C2 -/

/-- Claim C2: for every input array and every present WindowCenter /
WindowWidth pair (scalar or multi-value, first element used), with a
non-negative window width (DICOM requires a positive width), every sample
produced by the windowing step lies in the closed interval
[center - width/2, center + width/2]; in particular center 128 and width 64
put every pre-normalization sample in [96, 160]. -/
theorem apply_window_clips_to_interval (image : List ℚ) (center width : DicomTagValue)
    (hw : 0 ≤ width.first) :
    (∀ y ∈ apply_window image center width,
        center.first - width.first / 2 ≤ y ∧ y ≤ center.first + width.first / 2) ∧
    (∀ image2 : List ℚ, ∀ y ∈ apply_window image2 (.scalar 128) (.scalar 64),
        96 ≤ y ∧ y ≤ 160) := by
  have key : ∀ (img : List ℚ) (cv wv : DicomTagValue), 0 ≤ wv.first →
      ∀ y ∈ apply_window img cv wv,
        cv.first - wv.first / 2 ≤ y ∧ y ≤ cv.first + wv.first / 2 := by
    intro img cv wv hwv y hy
    have hfl : pyFloorDiv wv.first 2 ≤ wv.first / 2 := pyFloorDiv_le _ _
    have hfn : 0 ≤ pyFloorDiv wv.first 2 := pyFloorDiv_nonneg hwv (by norm_num)
    simp only [apply_window, List.map_map, List.mem_map, Function.comp] at hy
    obtain ⟨x, _, rfl⟩ := hy
    constructor
    · split_ifs <;> linarith
    · split_ifs <;> linarith
  refine ⟨key image center width hw, ?_⟩
  intro image2 y hy
  have h0 : (0 : ℚ) ≤ (DicomTagValue.scalar 64).first := by norm_num [DicomTagValue.first]
  have h := key image2 (.scalar 128) (.scalar 64) h0 y hy
  simp only [DicomTagValue.first] at h
  constructor <;> [linarith [h.1]; linarith [h.2]]

/-- Witness for C2: the hypotheses of the windowing theorem hold at the
concrete input image [50] with center 128 and width 64, and the clipped
sample 96 produced there lies in the claimed interval. -/
theorem apply_window_clips_to_interval_witness :
    (0 : ℚ) ≤ (DicomTagValue.scalar 64).first ∧
    ((DicomTagValue.scalar 128).first - (DicomTagValue.scalar 64).first / 2 ≤ 96 ∧
      (96 : ℚ) ≤ (DicomTagValue.scalar 128).first + (DicomTagValue.scalar 64).first / 2) := by
  have h0 : (0 : ℚ) ≤ (DicomTagValue.scalar 64).first := by norm_num [DicomTagValue.first]
  refine ⟨h0, ?_⟩
  have hfd : pyFloorDiv 64 2 = 32 := by
    unfold pyFloorDiv
    norm_num
  have hmem : (96 : ℚ) ∈ apply_window [50] (.scalar 128) (.scalar 64) := by
    simp [apply_window, DicomTagValue.first, hfd]
    norm_num
  exact (apply_window_clips_to_interval [50] (.scalar 128) (.scalar 64) h0).1 96 hmem

/-! ## Claim C7 -/

/-- Claim C7: the normalization step of dcm_to_numpy maps any non-degenerate
array (minimum strictly below maximum) to 8-bit values in [0, 255], and maps
any degenerate array (minimum equal to maximum, as a constant array has) to
the all-zero image instead of dividing by zero. -/
theorem normalize_step_range (x : ℚ) (xs : List ℚ) :
    (xs.foldl min x < xs.foldl max x →
        ∀ y ∈ normalize_step (x :: xs), 0 ≤ y ∧ y ≤ 255) ∧
    (xs.foldl min x = xs.foldl max x →
        normalize_step (x :: xs) = (x :: xs).map (fun _ => 0)) := by
  constructor
  · intro hlt y hy
    simp only [normalize_step, hlt, if_true, List.mem_map] at hy
    obtain ⟨v, hv, rfl⟩ := hy
    have hmin : xs.foldl min x ≤ v := foldl_min_le x xs v hv
    have hmax : v ≤ xs.foldl max x := le_foldl_max x xs v hv
    have hd : (0 : ℚ) < xs.foldl max x - xs.foldl min x := by linarith
    have hratio0 : (0 : ℚ) ≤ (v - xs.foldl min x) / (xs.foldl max x - xs.foldl min x) :=
      div_nonneg (by linarith) (le_of_lt hd)
    have hratio1 : (v - xs.foldl min x) / (xs.foldl max x - xs.foldl min x) ≤ 1 :=
      (div_le_one hd).mpr (by linarith)
    constructor
    · exact Int.floor_nonneg.mpr (by nlinarith)
    · have hle : (v - xs.foldl min x) / (xs.foldl max x - xs.foldl min x) * 255 ≤ 255 := by
        nlinarith
      have := Int.floor_le_floor (α := ℚ) hle
      simpa using this
  · intro heq
    simp [normalize_step, heq]

/-- Witness for C7: at the concrete non-degenerate array [0, 2] the theorem
yields bounds for the sample 0 of its normalization, and at the concrete
constant array [5, 5] it yields the all-zero image. -/
theorem normalize_step_range_witness :
    ((0 : ℤ) ≤ 0 ∧ (0 : ℤ) ≤ 255) ∧
      normalize_step [(5 : ℚ), 5] = [0, 0] := by
  constructor
  · have hlt : [(2 : ℚ)].foldl min 0 < [(2 : ℚ)].foldl max 0 := by
      norm_num
    have hmem : (0 : ℤ) ∈ normalize_step [(0 : ℚ), 2] := by
      have h2 : normalize_step [(0 : ℚ), 2] = [0, 255] := by
        simp [normalize_step]
      rw [h2]
      simp
    exact (normalize_step_range 0 [2]).1 hlt 0 hmem
  · have heq : [(5 : ℚ)].foldl min 5 = [(5 : ℚ)].foldl max 5 := by norm_num
    simpa using (normalize_step_range 5 [5]).2 heq

/-! ## Lemmas about the fan-out -/

theorem fanOutGo_spec (endpoints : List (String × String)) (outcomes : String → HttpOutcome)
    (acc : FanOutResult) :
    (fanOutGo endpoints outcomes acc).results = acc.results ++ fanResults endpoints outcomes ∧
    (fanOutGo endpoints outcomes acc).errors = acc.errors ++ fanErrors endpoints outcomes := by
  induction endpoints generalizing acc with
  | nil => simp [fanOutGo, fanResults, fanErrors]
  | cons e rest ih =>
      obtain ⟨name, url⟩ := e
      by_cases hcase : (call_prediction_api url (outcomes name)).isErrorDict = true
      · have h1 :
            fanOutGo ((name, url) :: rest) outcomes acc =
              fanOutGo rest outcomes
                { acc with errors := acc.errors ++ [apiErrorMsg name (call_prediction_api url (outcomes name))] } := by
          simp [fanOutGo, hcase]
        rw [h1]
        obtain ⟨hr, he⟩ := ih _
        refine ⟨?_, ?_⟩
        · rw [hr]
          simp [fanResults, hcase]
        · rw [he]
          simp [fanErrors, hcase]
      · have h1 :
            fanOutGo ((name, url) :: rest) outcomes acc =
              fanOutGo rest outcomes
                { acc with results := acc.results ++ [(name, call_prediction_api url (outcomes name))] } := by
          simp [fanOutGo, hcase]
        rw [h1]
        obtain ⟨hr, he⟩ := ih _
        refine ⟨?_, ?_⟩
        · rw [hr]
          simp [fanResults, hcase]
        · rw [he]
          simp [fanErrors, hcase]

theorem fanOut_results (endpoints : List (String × String)) (outcomes : String → HttpOutcome) :
    (fanOut endpoints outcomes).results = fanResults endpoints outcomes := by
  have h := fanOutGo_spec endpoints outcomes ⟨[], []⟩
  simpa [fanOut] using h.1

theorem fanOut_errors (endpoints : List (String × String)) (outcomes : String → HttpOutcome) :
    (fanOut endpoints outcomes).errors = fanErrors endpoints outcomes := by
  have h := fanOutGo_spec endpoints outcomes ⟨[], []⟩
  simpa [fanOut] using h.2

theorem dlookup_eq_none_of_forall {α : Type} (m : List (String × α)) (k : String)
    (h : ∀ kv ∈ m, kv.1 ≠ k) : dlookup m k = none := by
  induction m with
  | nil => rfl
  | cons kv rest ih =>
      have hk : kv.1 ≠ k := h kv (by simp)
      have : (kv.1 == k) = false := beq_eq_false_iff_ne.mpr hk
      simp only [dlookup, this, if_false]
      exact ih (fun kv2 h2 => h kv2 (List.mem_cons_of_mem _ h2))

/-- In a list whose keys are nodup, two entries with the same key coincide. -/
theorem nodup_key_unique {α : Type} (l : List (String × α)) (hn : (l.map Prod.fst).Nodup)
    (a b : String × α) (ha : a ∈ l) (hb : b ∈ l) (hk : a.1 = b.1) : a = b := by
  induction l with
  | nil => simp at ha
  | cons e rest ih =>
      simp only [List.map_cons, List.nodup_cons] at hn
      rcases List.mem_cons.mp ha with h1 | h1 <;> rcases List.mem_cons.mp hb with h2 | h2
      · rw [h1, h2]
      · exfalso
        apply hn.1
        rw [← h1, hk]
        exact List.mem_map_of_mem Prod.fst h2
      · exfalso
        apply hn.1
        rw [← h2, ← hk]
        exact List.mem_map_of_mem Prod.fst h1
      · exact ih hn.2 h1 h2

/-! ## Claim C4 -/

/-- Claim C4: call_prediction_api turns every network failure, every non-2xx
status, and every 2xx non-JSON body into the error-dict value (it is a total
function, so nothing is raised); and the concrete three-endpoint fan-out in
which one endpoint answers HTTP 500 collects exactly two successful
responses and records exactly one error, the siblings being unaffected. -/
theorem call_api_errors_are_values_and_fanout_isolates :
    (∀ url msg : String,
        (call_prediction_api url (.networkFailure msg)).isErrorDict = true) ∧
    (∀ (url : String) (body : Option JVal),
        (call_prediction_api url (.response false body)).isErrorDict = true) ∧
    (∀ url : String,
        (call_prediction_api url (.response true none)).isErrorDict = true) ∧
    ((fanOut [("abnormality", "u1"), ("tuberculosis", "u2"), ("pneumothorax", "u3")]
        (fun n =>
          if n == "tuberculosis" then .response false none
          else .response true (some (.dict [("result", .dict [])])))).results.length = 2 ∧
      (fanOut [("abnormality", "u1"), ("tuberculosis", "u2"), ("pneumothorax", "u3")]
        (fun n =>
          if n == "tuberculosis" then .response false none
          else .response true (some (.dict [("result", .dict [])])))).errors.length = 1) := by
  refine ⟨?_, ?_, ?_, ?_⟩
  · intro url msg
    simp [call_prediction_api, JVal.isErrorDict]
  · intro url body
    simp [call_prediction_api, JVal.isErrorDict]
  · intro url
    simp [call_prediction_api, JVal.isErrorDict]
  · constructor <;> rfl

/-! ## Claim C10 -/

/-- Claim C10: when an endpoint answers 2xx with a JSON dict that has a
top-level error key, the fan-out records it as a failed endpoint (one message
in the error list) and keeps none of its body: it is absent from the results
map, and the step-2 dispatch of a service with no collected result aggregates
nothing. -/
theorem error_key_response_is_discarded (endpoints : List (String × String))
    (outcomes : String → HttpOutcome) (n url : String) (j : JVal)
    (hmem : (n, url) ∈ endpoints)
    (hnodup : (endpoints.map Prod.fst).Nodup)
    (hout : outcomes n = .response true (some j))
    (herr : j.isErrorDict = true) :
    dlookup (fanOut endpoints outcomes).results n = none ∧
    apiErrorMsg n j ∈ (fanOut endpoints outcomes).errors ∧
    (∀ (db : DB) (c : Nat) (v : String) (isSeg : Bool), step2_service db c v isSeg none = db) := by
  have hcall : call_prediction_api url (outcomes n) = j := by
    rw [hout]
    simp [call_prediction_api]
  refine ⟨?_, ?_, ?_⟩
  · rw [fanOut_results]
    apply dlookup_eq_none_of_forall
    intro kv hkv
    simp only [fanResults, List.mem_map] at hkv
    obtain ⟨e, he, rfl⟩ := hkv
    have hef := List.of_mem_filter he
    have hee := List.mem_of_mem_filter he
    intro hkn
    have : e = (n, url) := nodup_key_unique endpoints hnodup e (n, url) hee hmem hkn
    rw [this] at hef
    simp only [hcall, herr] at hef
    simp at hef
  · rw [fanOut_errors]
    have hfilter : (n, url) ∈ endpoints.filter
        (fun e => (call_prediction_api e.2 (outcomes e.1)).isErrorDict) := by
      apply List.mem_filter.mpr
      exact ⟨hmem, by simpa [hcall] using herr⟩
    have := List.mem_map_of_mem
      (fun e => apiErrorMsg e.1 (call_prediction_api e.2 (outcomes e.1))) hfilter
    simpa [fanErrors, hcall] using this
  · intro db c v isSeg
    rfl

/-- Witness for C10: the single concrete endpoint abnormality answering 2xx
with a JSON dict carrying an error key is dropped from the results map and
recorded as one error. -/
theorem error_key_response_is_discarded_witness :
    dlookup (fanOut [("abnormality", "u1")]
        (fun _ => .response true (some (.dict [("error", .str "boom")])))).results
        "abnormality" = none ∧
      apiErrorMsg "abnormality" (.dict [("error", .str "boom")]) ∈
        (fanOut [("abnormality", "u1")]
          (fun _ => .response true (some (.dict [("error", .str "boom")])))).errors := by
  have h := error_key_response_is_discarded [("abnormality", "u1")]
    (fun _ => .response true (some (.dict [("error", .str "boom")])))
    "abnormality" "u1" (.dict [("error", .str "boom")])
    (by simp) (by simp) rfl (by rfl)
  exact ⟨h.1, h.2.1⟩

/-! ## Lemmas about the prediction upsert (for C8) -/

theorem predKeyMatches_applyPredUpdate (c : Nat) (d v : String) (pv bs : ℚ) (tp : String)
    (r : PredRow) :
    predKeyMatches c d v (applyPredUpdate pv bs tp r) = predKeyMatches c d v r := rfl

theorem predKeyMatches_updIfMatch (c : Nat) (d v : String) (c2 : Nat) (d2 v2 : String)
    (pv bs : ℚ) (tp : String) (r : PredRow) :
    predKeyMatches c d v (updIfMatch c2 d2 v2 pv bs tp r) = predKeyMatches c d v r := by
  unfold updIfMatch
  split
  · exact predKeyMatches_applyPredUpdate c d v pv bs tp r
  · rfl

theorem predRowKey_updIfMatch (c : Nat) (d v : String) (pv bs : ℚ) (tp : String)
    (r : PredRow) :
    predRowKey (updIfMatch c d v pv bs tp r) = predRowKey r := by
  unfold updIfMatch
  split <;> rfl

theorem any_pk_map_updIfMatch (ps : List PredRow) (c : Nat) (d v : String) (c2 : Nat)
    (d2 v2 : String) (pv bs : ℚ) (tp : String) :
    (ps.map (updIfMatch c2 d2 v2 pv bs tp)).any (predKeyMatches c d v) =
      ps.any (predKeyMatches c d v) := by
  induction ps with
  | nil => rfl
  | cons r rest ih =>
      simp only [List.map_cons, List.any_cons, predKeyMatches_updIfMatch, ih]

theorem filter_pk_map_updIfMatch (ps : List PredRow) (c : Nat) (d v : String) (c2 : Nat)
    (d2 v2 : String) (pv bs : ℚ) (tp : String) :
    (ps.map (updIfMatch c2 d2 v2 pv bs tp)).filter (predKeyMatches c d v) =
      (ps.filter (predKeyMatches c d v)).map (updIfMatch c2 d2 v2 pv bs tp) := by
  induction ps with
  | nil => rfl
  | cons r rest ih =>
      by_cases h : predKeyMatches c d v r = true
      · have h2 : predKeyMatches c d v (updIfMatch c2 d2 v2 pv bs tp r) = true := by
          rw [predKeyMatches_updIfMatch]; exact h
        simp [List.filter_cons, h, h2, ih]
      · have h2 : predKeyMatches c d v (updIfMatch c2 d2 v2 pv bs tp r) = false := by
          rw [predKeyMatches_updIfMatch]
          exact Bool.not_eq_true _ ▸ (by simpa using h)
        simp [List.filter_cons, h, h2, ih]

theorem pk_self (c : Nat) (d v : String) (pv bs : ℚ) (tp : String) :
    predKeyMatches c d v ⟨c, d, v, pv, bs, tp⟩ = true := by
  simp [predKeyMatches]

theorem pk_imp_eq_key {c : Nat} {d v : String} {r : PredRow}
    (h : predKeyMatches c d v r = true) : predRowKey r = (c, d, v) := by
  simp only [predKeyMatches, Bool.and_eq_true, beq_iff_eq] at h
  simp [predRowKey, h.1.1, h.1.2, h.2]

theorem pk_new_of_ne {c : Nat} {d v : String} {c2 : Nat} {d2 v2 : String}
    {pv bs : ℚ} {tp : String} (hne : (c, d, v) ≠ (c2, d2, v2)) :
    predKeyMatches c d v (⟨c2, d2, v2, pv, bs, tp⟩ : PredRow) = false := by
  by_contra h
  have h2 : predKeyMatches c d v (⟨c2, d2, v2, pv, bs, tp⟩ : PredRow) = true := by
    revert h
    cases predKeyMatches c d v (⟨c2, d2, v2, pv, bs, tp⟩ : PredRow) <;> simp
  have := pk_imp_eq_key h2
  simp only [predRowKey] at this
  exact hne this.symm

theorem upsert_of_present {ps : List PredRow} {c : Nat} {d v : String} (pv bs : ℚ)
    (tp : String) (h : ps.any (predKeyMatches c d v) = true) :
    upsertPrediction ps c d v pv bs tp = ps.map (updIfMatch c d v pv bs tp) := by
  simp [upsertPrediction, h]

theorem upsert_of_absent {ps : List PredRow} {c : Nat} {d v : String} (pv bs : ℚ)
    (tp : String) (h : ps.any (predKeyMatches c d v) = false) :
    upsertPrediction ps c d v pv bs tp = ps ++ [⟨c, d, v, pv, bs, tp⟩] := by
  simp [upsertPrediction, h]

theorem any_pk_upsert_self (ps : List PredRow) (c : Nat) (d v : String) (pv bs : ℚ)
    (tp : String) :
    (upsertPrediction ps c d v pv bs tp).any (predKeyMatches c d v) = true := by
  unfold upsertPrediction
  split
  · rename_i h
    rw [any_pk_map_updIfMatch]
    exact h
  · simp [List.any_append, pk_self]

theorem any_pk_upsert_mono {ps : List PredRow} {c : Nat} {d v : String} (c2 : Nat)
    (d2 v2 : String) (pv bs : ℚ) (tp : String)
    (h : ps.any (predKeyMatches c d v) = true) :
    (upsertPrediction ps c2 d2 v2 pv bs tp).any (predKeyMatches c d v) = true := by
  unfold upsertPrediction
  split
  · rw [any_pk_map_updIfMatch]; exact h
  · simp [List.any_append, h]

theorem map_updIfMatch_of_absent {ps : List PredRow} {c : Nat} {d v : String}
    (pv bs : ℚ) (tp : String) (h : ps.any (predKeyMatches c d v) = false) :
    ps.map (updIfMatch c d v pv bs tp) = ps := by
  induction ps with
  | nil => rfl
  | cons r rest ih =>
      simp only [List.any_cons, Bool.or_eq_false_iff] at h
      have hr : updIfMatch c d v pv bs tp r = r := by
        unfold updIfMatch
        simp [h.1]
      simp [hr, ih h.2]

theorem updIfMatch_idem (c : Nat) (d v : String) (pv bs : ℚ) (tp : String) (r : PredRow) :
    updIfMatch c d v pv bs tp (updIfMatch c d v pv bs tp r) =
      updIfMatch c d v pv bs tp r := by
  unfold updIfMatch
  by_cases h : predKeyMatches c d v r = true
  · simp [h, predKeyMatches_applyPredUpdate, applyPredUpdate]
  · simp [h]

theorem updIfMatch_new (c : Nat) (d v : String) (pv bs : ℚ) (tp : String) :
    updIfMatch c d v pv bs tp ⟨c, d, v, pv, bs, tp⟩ = ⟨c, d, v, pv, bs, tp⟩ := by
  simp [updIfMatch, pk_self, applyPredUpdate]

theorem upsert_idem (ps : List PredRow) (c : Nat) (d v : String) (pv bs : ℚ) (tp : String) :
    upsertPrediction (upsertPrediction ps c d v pv bs tp) c d v pv bs tp =
      upsertPrediction ps c d v pv bs tp := by
  have hpres := any_pk_upsert_self ps c d v pv bs tp
  rw [upsert_of_present pv bs tp hpres]
  by_cases h : ps.any (predKeyMatches c d v) = true
  · rw [upsert_of_present pv bs tp h, List.map_map]
    apply List.map_congr_left
    intro r _
    exact updIfMatch_idem c d v pv bs tp r
  · have h2 : ps.any (predKeyMatches c d v) = false := by simpa using h
    rw [upsert_of_absent pv bs tp h2, List.map_append,
      map_updIfMatch_of_absent pv bs tp h2]
    simp [updIfMatch_new]

theorem updIfMatch_comm {c : Nat} {d v : String} {c2 : Nat} {d2 v2 : String}
    (pv bs : ℚ) (tp : String) (pv2 bs2 : ℚ) (tp2 : String)
    (hne : (c, d, v) ≠ (c2, d2, v2)) (r : PredRow) :
    updIfMatch c d v pv bs tp (updIfMatch c2 d2 v2 pv2 bs2 tp2 r) =
      updIfMatch c2 d2 v2 pv2 bs2 tp2 (updIfMatch c d v pv bs tp r) := by
  by_cases h1 : predKeyMatches c d v r = true
  · by_cases h2 : predKeyMatches c2 d2 v2 r = true
    · exfalso
      have e1 := pk_imp_eq_key h1
      have e2 := pk_imp_eq_key h2
      exact hne (e1.symm.trans e2)
    · have h2f : predKeyMatches c2 d2 v2 r = false := by simpa using h2
      have hu2 : updIfMatch c2 d2 v2 pv2 bs2 tp2 r = r := by simp [updIfMatch, h2f]
      have h2f' : predKeyMatches c2 d2 v2 (updIfMatch c d v pv bs tp r) = false := by
        rw [predKeyMatches_updIfMatch]; exact h2f
      rw [hu2]
      conv_rhs => rw [updIfMatch, h2f']
      simp
  · have h1f : predKeyMatches c d v r = false := by simpa using h1
    have hu1 : updIfMatch c d v pv bs tp r = r := by simp [updIfMatch, h1f]
    have h1f' : predKeyMatches c d v (updIfMatch c2 d2 v2 pv2 bs2 tp2 r) = false := by
      rw [predKeyMatches_updIfMatch]; exact h1f
    rw [hu1]
    conv_lhs => rw [updIfMatch, h1f']
    simp

theorem upsert_swap {ps : List PredRow} {c : Nat} {d v : String} {c2 : Nat}
    {d2 v2 : String} (pv bs : ℚ) (tp : String) (pv2 bs2 : ℚ) (tp2 : String)
    (hne : (c, d, v) ≠ (c2, d2, v2)) (hpres : ps.any (predKeyMatches c d v) = true) :
    upsertPrediction (upsertPrediction ps c2 d2 v2 pv2 bs2 tp2) c d v pv bs tp =
      upsertPrediction (upsertPrediction ps c d v pv bs tp) c2 d2 v2 pv2 bs2 tp2 := by
  have hpres2 : (upsertPrediction ps c2 d2 v2 pv2 bs2 tp2).any (predKeyMatches c d v) = true :=
    any_pk_upsert_mono c2 d2 v2 pv2 bs2 tp2 hpres
  rw [upsert_of_present pv bs tp hpres2, upsert_of_present pv bs tp hpres]
  by_cases h2 : ps.any (predKeyMatches c2 d2 v2) = true
  · have h2' : (ps.map (updIfMatch c d v pv bs tp)).any (predKeyMatches c2 d2 v2) = true := by
      rw [any_pk_map_updIfMatch]; exact h2
    rw [upsert_of_present pv2 bs2 tp2 h2, upsert_of_present pv2 bs2 tp2 h2',
      List.map_map, List.map_map]
    apply List.map_congr_left
    intro r _
    exact updIfMatch_comm pv bs tp pv2 bs2 tp2 hne r
  · have h2f : ps.any (predKeyMatches c2 d2 v2) = false := by simpa using h2
    have h2f' : (ps.map (updIfMatch c d v pv bs tp)).any (predKeyMatches c2 d2 v2) = false := by
      rw [any_pk_map_updIfMatch]; exact h2f
    rw [upsert_of_absent pv2 bs2 tp2 h2f, upsert_of_absent pv2 bs2 tp2 h2f', List.map_append]
    have hnew : updIfMatch c d v pv bs tp (⟨c2, d2, v2, pv2, bs2, tp2⟩ : PredRow) =
        (⟨c2, d2, v2, pv2, bs2, tp2⟩ : PredRow) := by
      simp [updIfMatch, pk_new_of_ne hne]
    simp [hnew]

theorem key_ne_of_disease_ne {c : Nat} {d v : String} {c2 : Nat} {d2 v2 : String}
    (h : d ≠ d2) : (c, d, v) ≠ (c2, d2, v2) := by
  intro he
  apply h
  have := congrArg (fun t : Nat × String × String => t.2.1) he
  simpa using this

theorem fold_pull (items : List (String × JVal)) (ps : List PredRow) (c : Nat)
    (v d : String) (pv bs : ℚ) (tp : String)
    (hnotin : d ∉ items.map Prod.fst)
    (hpres : ps.any (predKeyMatches c d v) = true) :
    upsertPrediction (predUpsertFold ps c items v) c d v pv bs tp =
      predUpsertFold (upsertPrediction ps c d v pv bs tp) c items v := by
  induction items generalizing ps with
  | nil => rfl
  | cons dv rest ih =>
      simp only [List.map_cons, List.mem_cons, not_or] at hnotin
      have hne : (c, d, v) ≠ (c, dv.1, v) := key_ne_of_disease_ne hnotin.1
      have hstep : predUpsertFold ps c (dv :: rest) v =
          predUpsertFold (predUpsertStep c v ps dv) c rest v := rfl
      rw [hstep]
      have hpres2 : (predUpsertStep c v ps dv).any (predKeyMatches c d v) = true :=
        any_pk_upsert_mono _ _ _ _ _ _ hpres
      rw [ih (predUpsertStep c v ps dv) hnotin.2 hpres2]
      have hswap : upsertPrediction (predUpsertStep c v ps dv) c d v pv bs tp =
          predUpsertStep c v (upsertPrediction ps c d v pv bs tp) dv := by
        unfold predUpsertStep
        exact upsert_swap pv bs tp _ _ _ hne hpres
      rw [hswap]
      rfl

theorem fold_idem (items : List (String × JVal)) (ps : List PredRow) (c : Nat)
    (v : String) (hnd : (items.map Prod.fst).Nodup) :
    predUpsertFold (predUpsertFold ps c items v) c items v =
      predUpsertFold ps c items v := by
  induction items generalizing ps with
  | nil => rfl
  | cons dv rest ih =>
      simp only [List.map_cons, List.nodup_cons] at hnd
      have hstep : ∀ qs, predUpsertFold qs c (dv :: rest) v =
          predUpsertFold (predUpsertStep c v qs dv) c rest v := fun _ => rfl
      rw [hstep, hstep]
      have hself : (predUpsertStep c v ps dv).any (predKeyMatches c dv.1 v) = true := by
        unfold predUpsertStep
        exact any_pk_upsert_self _ _ _ _ _ _ _
      have hpull : predUpsertStep c v (predUpsertFold (predUpsertStep c v ps dv) c rest v) dv =
          predUpsertFold (predUpsertStep c v (predUpsertStep c v ps dv) dv) c rest v := by
        unfold predUpsertStep
        exact fold_pull rest _ c v dv.1 _ _ _ hnd.1 hself
      rw [hpull]
      have hidem : predUpsertStep c v (predUpsertStep c v ps dv) dv =
          predUpsertStep c v ps dv := by
        unfold predUpsertStep
        exact upsert_idem _ _ _ _ _ _ _
      rw [hidem]
      exact ih (predUpsertStep c v ps dv) hnd.2

theorem key_eq_imp_pk {c : Nat} {d v : String} {r : PredRow}
    (h : predRowKey r = (c, d, v)) : predKeyMatches c d v r = true := by
  obtain ⟨rc, rd, rv, rpv, rbs, rtp⟩ := r
  simp only [predRowKey, Prod.mk.injEq] at h
  simp [predKeyMatches, h.1, h.2.1, h.2.2]

theorem filter_pk_singleton_of_nodup (ps : List PredRow) (c : Nat) (d v : String)
    (hnd : (ps.map predRowKey).Nodup) (hpres : ps.any (predKeyMatches c d v) = true) :
    ∃ r0, ps.filter (predKeyMatches c d v) = [r0] ∧ predKeyMatches c d v r0 = true := by
  induction ps with
  | nil => simp at hpres
  | cons r rest ih =>
      simp only [List.map_cons, List.nodup_cons] at hnd
      by_cases hr : predKeyMatches c d v r = true
      · refine ⟨r, ?_, hr⟩
        have hrest : rest.filter (predKeyMatches c d v) = [] := by
          rw [List.filter_eq_nil_iff]
          intro r2 hr2 hpk2
          apply hnd.1
          have e1 := pk_imp_eq_key hr
          have e2 := pk_imp_eq_key (by simpa using hpk2)
          rw [e1, ← e2]
          exact List.mem_map_of_mem predRowKey hr2
        simp [List.filter_cons, hr, hrest]
      · have hrf : predKeyMatches c d v r = false := by simpa using hr
        have hpres2 : rest.any (predKeyMatches c d v) = true := by
          simp only [List.any_cons, hrf, Bool.false_or] at hpres
          exact hpres
        obtain ⟨r0, he, hk⟩ := ih hnd.2 hpres2
        exact ⟨r0, by simp [List.filter_cons, hrf, he], hk⟩

theorem updIfMatch_canonical {c : Nat} {d v : String} (pv bs : ℚ) (tp : String)
    {r : PredRow} (h : predKeyMatches c d v r = true) :
    updIfMatch c d v pv bs tp r = ⟨c, d, v, pv, bs, tp⟩ := by
  have he := pk_imp_eq_key h
  have hu : updIfMatch c d v pv bs tp r = applyPredUpdate pv bs tp r := by
    simp [updIfMatch, h]
  rw [hu]
  obtain ⟨rc, rd, rv, rpv, rbs, rtp⟩ := r
  simp only [predRowKey, Prod.mk.injEq] at he
  simp [applyPredUpdate, he.1, he.2.1, he.2.2]

theorem filter_pk_upsert_self (ps : List PredRow) (c : Nat) (d v : String) (pv bs : ℚ)
    (tp : String) (hnd : (ps.map predRowKey).Nodup) :
    (upsertPrediction ps c d v pv bs tp).filter (predKeyMatches c d v) =
      [⟨c, d, v, pv, bs, tp⟩] := by
  by_cases h : ps.any (predKeyMatches c d v) = true
  · rw [upsert_of_present pv bs tp h, filter_pk_map_updIfMatch]
    obtain ⟨r0, he, hk⟩ := filter_pk_singleton_of_nodup ps c d v hnd h
    rw [he]
    simp [updIfMatch_canonical pv bs tp hk]
  · have hf : ps.any (predKeyMatches c d v) = false := by simpa using h
    rw [upsert_of_absent pv bs tp hf, List.filter_append]
    have h1 : ps.filter (predKeyMatches c d v) = [] := by
      rw [List.filter_eq_nil_iff]
      intro r hr hpk
      have := List.any_eq_false.mp hf r hr
      simp_all
    simp [h1, List.filter_cons, pk_self]

theorem filter_pk_upsert_other (ps : List PredRow) {c : Nat} {d v : String} {c2 : Nat}
    {d2 v2 : String} (pv2 bs2 : ℚ) (tp2 : String)
    (hne : (c, d, v) ≠ (c2, d2, v2)) :
    (upsertPrediction ps c2 d2 v2 pv2 bs2 tp2).filter (predKeyMatches c d v) =
      ps.filter (predKeyMatches c d v) := by
  by_cases h : ps.any (predKeyMatches c2 d2 v2) = true
  · rw [upsert_of_present pv2 bs2 tp2 h, filter_pk_map_updIfMatch]
    have : ∀ r ∈ ps.filter (predKeyMatches c d v),
        updIfMatch c2 d2 v2 pv2 bs2 tp2 r = r := by
      intro r hr
      have hpk : predKeyMatches c d v r = true := by
        have := List.of_mem_filter hr
        simpa using this
      have hpk2 : predKeyMatches c2 d2 v2 r = false := by
        by_contra hc
        have hc2 : predKeyMatches c2 d2 v2 r = true := by
          revert hc
          cases predKeyMatches c2 d2 v2 r <;> simp
        exact hne ((pk_imp_eq_key hpk).symm.trans (pk_imp_eq_key hc2))
      simp [updIfMatch, hpk2]
    calc (ps.filter (predKeyMatches c d v)).map (updIfMatch c2 d2 v2 pv2 bs2 tp2)
        = (ps.filter (predKeyMatches c d v)).map id := List.map_congr_left this
      _ = ps.filter (predKeyMatches c d v) := List.map_id _
  · have hf : ps.any (predKeyMatches c2 d2 v2) = false := by simpa using h
    rw [upsert_of_absent pv2 bs2 tp2 hf, List.filter_append]
    simp [List.filter_cons, pk_new_of_ne hne]

theorem fold_filter_preserved (items : List (String × JVal)) (ps : List PredRow)
    (c : Nat) (v d : String) (hnotin : d ∉ items.map Prod.fst) :
    (predUpsertFold ps c items v).filter (predKeyMatches c d v) =
      ps.filter (predKeyMatches c d v) := by
  induction items generalizing ps with
  | nil => rfl
  | cons dv rest ih =>
      simp only [List.map_cons, List.mem_cons, not_or] at hnotin
      have hstep : predUpsertFold ps c (dv :: rest) v =
          predUpsertFold (predUpsertStep c v ps dv) c rest v := rfl
      rw [hstep, ih _ hnotin.2]
      unfold predUpsertStep
      exact filter_pk_upsert_other ps _ _ _ (key_ne_of_disease_ne hnotin.1)

theorem keys_map_updIfMatch (ps : List PredRow) (c : Nat) (d v : String) (pv bs : ℚ)
    (tp : String) :
    (ps.map (updIfMatch c d v pv bs tp)).map predRowKey = ps.map predRowKey := by
  rw [List.map_map]
  apply List.map_congr_left
  intro r _
  exact predRowKey_updIfMatch c d v pv bs tp r

theorem keyNodup_upsert (ps : List PredRow) (c : Nat) (d v : String) (pv bs : ℚ)
    (tp : String) (hnd : (ps.map predRowKey).Nodup) :
    ((upsertPrediction ps c d v pv bs tp).map predRowKey).Nodup := by
  by_cases h : ps.any (predKeyMatches c d v) = true
  · rw [upsert_of_present pv bs tp h, keys_map_updIfMatch]
    exact hnd
  · have hf : ps.any (predKeyMatches c d v) = false := by simpa using h
    rw [upsert_of_absent pv bs tp hf, List.map_append]
    have hnotin : (c, d, v) ∉ ps.map predRowKey := by
      intro hmem
      obtain ⟨r, hr, he⟩ := List.mem_map.mp hmem
      have := List.any_eq_false.mp hf r hr
      exact this (key_eq_imp_pk he)
    simp [List.nodup_append, hnd, List.disjoint_singleton, predRowKey, hnotin]

theorem keyNodup_fold (items : List (String × JVal)) (ps : List PredRow) (c : Nat)
    (v : String) (hnd : (ps.map predRowKey).Nodup) :
    ((predUpsertFold ps c items v).map predRowKey).Nodup := by
  induction items generalizing ps with
  | nil => exact hnd
  | cons dv rest ih =>
      have hstep : predUpsertFold ps c (dv :: rest) v =
          predUpsertFold (predUpsertStep c v ps dv) c rest v := rfl
      rw [hstep]
      exact ih _ (keyNodup_upsert ps c dv.1 v _ _ _ hnd)

theorem process_prediction_result_predictions (db : DB) (c : Nat)
    (items : List (String × JVal)) (v : String) :
    (process_prediction_result db c (.dict items) v).predictions =
      predUpsertFold db.predictions c items v := by
  show (items.foldl (aggregatePredItem c v) db).predictions = _
  induction items generalizing db with
  | nil => rfl
  | cons dv rest ih =>
      rw [List.foldl_cons]
      rw [ih (aggregatePredItem c v db dv)]
      rfl

/-! ## Claim C8 -/

/-- Claim C8: aggregating the same classification response twice at the same
(case, disease, version) keys is idempotent on the Prediction table — the
second pass changes nothing — and for each disease of the response the table
afterwards holds exactly one row at that key, carrying the latest field
values from the response (with the source's defaults for missing fields). The
hypotheses are the uniqueness the schema enforces: Prediction rows are unique
per key (models.py unique_together) and the diseases of a JSON response dict
are distinct. -/
theorem reaggregation_is_idempotent (db : DB) (c : Nat) (v : String)
    (items : List (String × JVal))
    (hwk : (db.predictions.map predRowKey).Nodup)
    (hnd : (items.map Prod.fst).Nodup) :
    (process_prediction_result (process_prediction_result db c (.dict items) v) c
        (.dict items) v).predictions =
      (process_prediction_result db c (.dict items) v).predictions ∧
    ∀ dv ∈ items,
      (process_prediction_result (process_prediction_result db c (.dict items) v) c
          (.dict items) v).predictions.filter (predKeyMatches c dv.1 v) =
        [⟨c, dv.1, v, jGetNumD dv.2 "prediction" 0, jGetNumD dv.2 "balanced_score" 0,
          jGetStrD dv.2 "thresholded" "0%"⟩] := by
  have hproj1 := process_prediction_result_predictions db c items v
  have hproj2 := process_prediction_result_predictions
    (process_prediction_result db c (.dict items) v) c items v
  have hidem : (process_prediction_result (process_prediction_result db c (.dict items) v) c
      (.dict items) v).predictions =
      (process_prediction_result db c (.dict items) v).predictions := by
    rw [hproj2, hproj1, fold_idem items db.predictions c v hnd]
  refine ⟨hidem, ?_⟩
  intro dv hdv
  rw [hidem, hproj1]
  obtain ⟨pre, post, rfl⟩ := List.append_of_mem hdv
  have hkeys : (pre.map Prod.fst ++ dv.1 :: post.map Prod.fst).Nodup := by
    simpa using hnd
  rw [List.nodup_append] at hkeys
  have hpre : dv.1 ∉ pre.map Prod.fst := fun hmem =>
    hkeys.2.2 hmem (List.mem_cons_self _ _)
  have hpost : dv.1 ∉ post.map Prod.fst := by
    have := hkeys.2.1
    rw [List.nodup_cons] at this
    exact this.1
  have hsplit : predUpsertFold db.predictions c (pre ++ dv :: post) v =
      predUpsertFold (predUpsertStep c v (predUpsertFold db.predictions c pre v) dv) c post v := by
    unfold predUpsertFold
    rw [List.foldl_append, List.foldl_cons]
  rw [hsplit, fold_filter_preserved post _ c v dv.1 hpost]
  unfold predUpsertStep
  exact filter_pk_upsert_self _ c dv.1 v _ _ _
    (keyNodup_fold pre db.predictions c v hwk)

/-- Witness for C8: re-aggregating the concrete one-disease response for case
9 under version v3.5.1 leaves exactly one Nodule row holding the response's
values. -/
theorem reaggregation_is_idempotent_witness :
    (process_prediction_result
        (process_prediction_result ⟨[], [], [], [], []⟩ 9
          (.dict [("Nodule", .dict [("prediction", .num (31/50)),
            ("balanced_score", .num (3/5)), ("thresholded", .str "62%")])]) "v3.5.1") 9
        (.dict [("Nodule", .dict [("prediction", .num (31/50)),
          ("balanced_score", .num (3/5)), ("thresholded", .str "62%")])]) "v3.5.1").predictions.filter
      (predKeyMatches 9 "Nodule" "v3.5.1") =
      [⟨9, "Nodule", "v3.5.1", 31/50, 3/5, "62%"⟩] := by
  have h := reaggregation_is_idempotent ⟨[], [], [], [], []⟩ 9 "v3.5.1"
    [("Nodule", .dict [("prediction", .num (31/50)),
      ("balanced_score", .num (3/5)), ("thresholded", .str "62%")])]
    (by simp) (by simp)
  have h2 := h.2 ("Nodule", .dict [("prediction", .num (31/50)),
    ("balanced_score", .num (3/5)), ("thresholded", .str "62%")]) (by simp)
  simpa [jGetNumD, jGetStrD, JVal.lookupKey] using h2

/-! ## Lemmas about dict assignment and the overlay selector -/

theorem dlookup_dinsert_self {α : Type} (m : List (String × α)) (k : String) (v : α) :
    dlookup (dinsert m k v) k = some v := by
  induction m with
  | nil => simp [dinsert, dlookup]
  | cons kv rest ih =>
      by_cases h : kv.1 == k
      · simp [dinsert, h, dlookup]
      · simp only [dinsert, h, if_false, Bool.false_eq_true]
        simp only [dlookup, h, if_false, Bool.false_eq_true]
        exact ih

theorem dlookup_dinsert_ne {α : Type} (m : List (String × α)) (k k2 : String) (v : α)
    (h : k2 ≠ k) : dlookup (dinsert m k v) k2 = dlookup m k2 := by
  induction m with
  | nil =>
      have hb : (k == k2) = false := beq_eq_false_iff_ne.mpr (fun e => h e.symm)
      simp [dinsert, dlookup, hb]
  | cons kv rest ih =>
      by_cases hk : kv.1 == k
      · have he : kv.1 = k := beq_iff_eq.mp hk
        have hb : (k == k2) = false := beq_eq_false_iff_ne.mpr (fun e => h e.symm)
        have hb2 : (kv.1 == k2) = false := by
          rw [he]; exact hb
        simp [dinsert, hk, dlookup, hb, hb2]
      · simp only [dinsert, hk, if_false, Bool.false_eq_true]
        by_cases hk2 : kv.1 == k2
        · simp [dlookup, hk2]
        · simp only [dlookup, hk2, if_false, Bool.false_eq_true]
          exact ih

theorem dlookup_none_not_mem {α : Type} {m : List (String × α)} {k : String}
    (h : dlookup m k = none) : k ∉ m.map Prod.fst := by
  induction m with
  | nil => simp
  | cons kv rest ih =>
      by_cases hk : kv.1 == k
      · simp [dlookup, hk] at h
      · simp only [dlookup, hk, if_false, Bool.false_eq_true] at h
        have hne : kv.1 ≠ k := by
          intro e
          rw [e] at hk
          simp at hk
        simp only [List.map_cons, List.mem_cons]
        intro hc
        rcases hc with hc | hc
        · exact hne hc.symm
        · exact ih h hc

theorem mem_imp_contains {l : List String} {a : String} (h : a ∈ l) :
    l.contains a = true := by
  induction l with
  | nil => simp at h
  | cons b rest ih =>
      rcases List.mem_cons.mp h with h1 | h1
      · simp [List.contains_cons, h1]
      · simp only [List.contains_cons, ih h1, Bool.or_true]

theorem seg_suffix_ne_pneumothorax (cls : String) :
    cls ++ " Segmentation" ≠ "Pneumothorax" := by
  intro h
  have hlen := congrArg String.length h
  rw [String.length_append] at hlen
  have h13 : (" Segmentation" : String).length = 13 := rfl
  have h12 : ("Pneumothorax" : String).length = 12 := rfl
  rw [h13, h12] at hlen
  omega

/-- Any segStep for a class other than Pneumothorax leaves the Pneumothorax
entries of the heatmap and fallback maps unchanged. -/
theorem segStep_preserves_pneu (low : List String) (gs : String → String)
    (preds : List SelPred) (st : OvState) (s : SelSeg)
    (h : s.class_name ≠ "Pneumothorax") :
    dlookup (segStep low gs preds st s).heatmap_paths "Pneumothorax" =
        dlookup st.heatmap_paths "Pneumothorax" ∧
      dlookup (segStep low gs preds st s).fallback_heatmap_paths "Pneumothorax" =
        dlookup st.fallback_heatmap_paths "Pneumothorax" := by
  have hb : (s.class_name == "Pneumothorax") = false := beq_eq_false_iff_ne.mpr h
  have hne : ∀ path : Path, dlookup (dinsert st.heatmap_paths (s.class_name ++ " Segmentation") path)
      "Pneumothorax" = dlookup st.heatmap_paths "Pneumothorax" :=
    fun _ => dlookup_dinsert_ne _ _ _ _ (fun e => seg_suffix_ne_pneumothorax _ e.symm)
  unfold segStep
  split
  · exact ⟨rfl, rfl⟩
  split
  · exact ⟨rfl, rfl⟩
  split
  · exact ⟨rfl, rfl⟩
  split
  · exact ⟨rfl, rfl⟩
  split
  · exact ⟨rfl, rfl⟩
  split
  · rename_i hT
    rw [hb] at hT
    simp at hT
  split
  · exact ⟨hne _, rfl⟩
  · exact ⟨hne _, rfl⟩

/-- Folding segSteps over classes other than Pneumothorax preserves the
Pneumothorax entries of the heatmap and fallback maps. -/
theorem segFold_preserves_pneu (post : List SelSeg) (low : List String)
    (gs : String → String) (preds : List SelPred) (st : OvState)
    (h : ∀ s ∈ post, s.class_name ≠ "Pneumothorax") :
    dlookup (post.foldl (segStep low gs preds) st).heatmap_paths "Pneumothorax" =
        dlookup st.heatmap_paths "Pneumothorax" ∧
      dlookup (post.foldl (segStep low gs preds) st).fallback_heatmap_paths "Pneumothorax" =
        dlookup st.fallback_heatmap_paths "Pneumothorax" := by
  induction post generalizing st with
  | nil => exact ⟨rfl, rfl⟩
  | cons s rest ih =>
      rw [List.foldl_cons]
      have hstep := segStep_preserves_pneu low gs preds st s (h s (by simp))
      have hrest := ih (segStep low gs preds st s) (fun s2 h2 => h s2 (List.mem_cons_of_mem _ h2))
      exact ⟨hrest.1.trans hstep.1, hrest.2.trans hstep.2⟩

/-- Processing the Pneumothorax segment itself (with a native mask file, the
disease not in the low set, and a classifier prediction with a native heatmap
present) installs the mask path as the primary Pneumothorax artifact and the
classifier heatmap path as the Pneumothorax fallback. -/
theorem segStep_pneu (low : List String) (gs : String → String) (preds : List SelPred)
    (st : OvState) (maskPath hpPath : Path) (pr : SelPred)
    (hlow : low.contains "Pneumothorax" = false)
    (hfind : preds.find? (fun p => p.disease_name == "Pneumothorax") = some pr)
    (hpr : pr.heatmap_image = some (.native hpPath)) :
    dlookup (segStep low gs preds st ⟨"Pneumothorax", some (.native maskPath)⟩).heatmap_paths
        "Pneumothorax" = some maskPath ∧
      dlookup (segStep low gs preds st
          ⟨"Pneumothorax", some (.native maskPath)⟩).fallback_heatmap_paths
        "Pneumothorax" = some hpPath := by
  unfold segStep
  simp only [hlow, hfind, hpr, getPath]
  norm_num
  exact ⟨dlookup_dinsert_self _ _ _, dlookup_dinsert_self _ _ _⟩

/-! ## Claim C3 -/

/-- Claim C3: when a Pneumothorax segmentation mask and a Pneumothorax
classifier heatmap both exist for the version being selected (both with
native paths) and Pneumothorax is not in the low set, the selector maps the
key Pneumothorax of heatmapPaths to the mask's path and the key Pneumothorax
of fallbackHeatmapPaths to the classifier heatmap's path: the displaced
classifier heatmap is kept, not dropped. -/
theorem pneumothorax_mask_takes_precedence (gs : String → String) (w0 : World)
    (preds : List SelPred) (pre post : List SelSeg) (maskPath hpPath : Path)
    (pr : SelPred)
    (hlow : (lowSet preds).contains "Pneumothorax" = false)
    (hfind : preds.find? (fun p => p.disease_name == "Pneumothorax") = some pr)
    (hpr : pr.heatmap_image = some (.native hpPath))
    (hpost : ∀ s ∈ post, s.class_name ≠ "Pneumothorax") :
    dlookup (selectOverlayArtifacts gs w0 preds
        (pre ++ ⟨"Pneumothorax", some (.native maskPath)⟩ :: post)).heatmap_paths
      "Pneumothorax" = some maskPath ∧
    dlookup (selectOverlayArtifacts gs w0 preds
        (pre ++ ⟨"Pneumothorax", some (.native maskPath)⟩ :: post)).fallback_heatmap_paths
      "Pneumothorax" = some hpPath := by
  unfold selectOverlayArtifacts
  rw [List.foldl_append, List.foldl_cons]
  have hmid := segStep_pneu (lowSet preds) gs preds
    (pre.foldl (segStep (lowSet preds) gs preds)
      (preds.foldl (predStep (lowSet preds) gs) ⟨w0, [], [], [], none, none, []⟩))
    maskPath hpPath pr hlow hfind hpr
  have hrest := segFold_preserves_pneu post (lowSet preds) gs preds
    (segStep (lowSet preds) gs preds
      (pre.foldl (segStep (lowSet preds) gs preds)
        (preds.foldl (predStep (lowSet preds) gs) ⟨w0, [], [], [], none, none, []⟩))
      ⟨"Pneumothorax", some (.native maskPath)⟩) hpost
  exact ⟨hrest.1.trans hmid.1, hrest.2.trans hmid.2⟩

/-- Witness for C3: a concrete selection with one non-low Pneumothorax
prediction carrying a native heatmap and one Pneumothorax segment. -/
theorem pneumothorax_mask_takes_precedence_witness :
    dlookup (selectOverlayArtifacts (fun _ => "d") ⟨[], [], 0⟩
        [⟨"Pneumothorax", 1/2, "62%", some (.native "/hm.png")⟩]
        ([] ++ ⟨"Pneumothorax", some (.native "/mask.png")⟩ :: [])).heatmap_paths
      "Pneumothorax" = some "/mask.png" ∧
    dlookup (selectOverlayArtifacts (fun _ => "d") ⟨[], [], 0⟩
        [⟨"Pneumothorax", 1/2, "62%", some (.native "/hm.png")⟩]
        ([] ++ ⟨"Pneumothorax", some (.native "/mask.png")⟩ :: [])).fallback_heatmap_paths
      "Pneumothorax" = some "/hm.png" :=
  pneumothorax_mask_takes_precedence (fun _ => "d") ⟨[], [], 0⟩
    [⟨"Pneumothorax", 1/2, "62%", some (.native "/hm.png")⟩] [] []
    "/mask.png" "/hm.png" ⟨"Pneumothorax", 1/2, "62%", some (.native "/hm.png")⟩
    (by decide) rfl rfl (by simp)

/-- A prediction step never installs an entry for a disease of the low set:
the low-set guard at views.py line 252 skips it first. -/
theorem predStep_preserves_low (low : List String) (gs : String → String)
    (st : OvState) (p : SelPred) (X : String) (hX : X ∈ low) :
    dlookup (predStep low gs st p).heatmap_paths X = dlookup st.heatmap_paths X ∧
    dlookup (predStep low gs st p).confidence_scores X = dlookup st.confidence_scores X := by
  by_cases h1 : p.disease_name ∈ low
  · simp [predStep, h1]
  · by_cases h2 : p.disease_name = "Cardiomegaly"
    · simp [predStep, h1, h2]
    · cases hhi : p.heatmap_image with
      | none => simp [predStep, h1, h2, hhi]
      | some f =>
          have hne : X ≠ p.disease_name := fun e => h1 (e ▸ hX)
          rcases hgp : getPath st.w (some f) with ⟨w2, mp⟩
          cases mp with
          | none => simp [predStep, h1, h2, hhi, hgp]
          | some path =>
              simp [predStep, h1, h2, hhi, hgp, dlookup_dinsert_ne _ _ _ _ hne]

/-- A segment step never installs an entry for a finding of the low set,
provided the finding's name is not the suffixed segmentation key of the
segment's class. -/
theorem segStep_preserves_low (low : List String) (gs : String → String)
    (preds : List SelPred) (st : OvState) (s : SelSeg) (X : String) (hX : X ∈ low)
    (hnc : X ≠ s.class_name ++ " Segmentation") :
    dlookup (segStep low gs preds st s).heatmap_paths X = dlookup st.heatmap_paths X ∧
    dlookup (segStep low gs preds st s).confidence_scores X =
      dlookup st.confidence_scores X := by
  by_cases h1 : s.class_name ∈ low
  · simp [segStep, h1]
  · by_cases h2 : s.class_name = "Lung"
    · have h1b : "Lung" ∉ low := h2 ▸ h1
      rcases hgp : getPath st.w s.segment_image with ⟨w2, mp⟩
      simp [segStep, h1, h1b, h2, hgp]
    · by_cases h3 : s.class_name = "Lung Convex"
      · have h1b : "Lung Convex" ∉ low := h3 ▸ h1
        rcases hgp : getPath st.w s.segment_image with ⟨w2, mp⟩
        simp [segStep, h1, h1b, h2, h3, hgp]
      · cases hsi : s.segment_image with
        | none => simp [segStep, h1, h2, h3, hsi]
        | some f =>
            rcases hgp : getPath st.w (some f) with ⟨w2, mp⟩
            cases mp with
            | none => simp [segStep, h1, h2, h3, hsi, hgp]
            | some path =>
                by_cases h4 : s.class_name = "Pneumothorax"
                · have hXp : X ≠ "Pneumothorax" := fun e => h1 ((h4.trans e.symm) ▸ hX)
                  have h1b : "Pneumothorax" ∉ low := h4 ▸ h1
                  cases hf : preds.find? (fun p => p.disease_name == "Pneumothorax") with
                  | none =>
                      simp [segStep, h1, h1b, h2, h3, hsi, hgp, h4, hf, pneuBase,
                        dlookup_dinsert_ne _ _ _ _ hXp]
                  | some pr =>
                      cases hpi : pr.heatmap_image with
                      | none =>
                          simp [segStep, h1, h1b, h2, h3, hsi, hgp, h4, hf, hpi, pneuBase,
                            dlookup_dinsert_ne _ _ _ _ hXp]
                      | some hfimg =>
                          rcases hgp2 : getPath w2 (some hfimg) with ⟨w3, mp2⟩
                          cases mp2 with
                          | none =>
                              simp [segStep, h1, h1b, h2, h3, hsi, hgp, h4, hf, hpi, hgp2,
                                pneuBase, dlookup_dinsert_ne _ _ _ _ hXp]
                          | some fb =>
                              simp [segStep, h1, h1b, h2, h3, hsi, hgp, h4, hf, hpi, hgp2,
                                pneuBase, dlookup_dinsert_ne _ _ _ _ hXp]
                · cases hf : preds.find? (fun p => p.disease_name == s.class_name) with
                  | none =>
                      simp [segStep, h1, h2, h3, hsi, hgp, h4, hf, segBase,
                        dlookup_dinsert_ne _ _ _ _ hnc]
                  | some pr =>
                      simp [segStep, h1, h2, h3, hsi, hgp, h4, hf, segBase,
                        dlookup_dinsert_ne _ _ _ _ hnc]

/-- The prediction loop preserves the absence of low findings from both
maps. -/
theorem predFold_preserves_low (preds2 : List SelPred) (low : List String)
    (gs : String → String) (st : OvState) (X : String) (hX : X ∈ low) :
    dlookup (preds2.foldl (predStep low gs) st).heatmap_paths X =
        dlookup st.heatmap_paths X ∧
      dlookup (preds2.foldl (predStep low gs) st).confidence_scores X =
        dlookup st.confidence_scores X := by
  induction preds2 generalizing st with
  | nil => exact ⟨rfl, rfl⟩
  | cons p rest ih =>
      rw [List.foldl_cons]
      have hstep := predStep_preserves_low low gs st p X hX
      have hrest := ih (predStep low gs st p)
      exact ⟨hrest.1.trans hstep.1, hrest.2.trans hstep.2⟩

/-- The segment loop preserves the absence of low findings from both maps,
under the no-suffix-collision condition. -/
theorem segFold_preserves_low (segs : List SelSeg) (low : List String)
    (gs : String → String) (preds : List SelPred) (st : OvState) (X : String)
    (hX : X ∈ low) (hnc : ∀ s ∈ segs, X ≠ s.class_name ++ " Segmentation") :
    dlookup (segs.foldl (segStep low gs preds) st).heatmap_paths X =
        dlookup st.heatmap_paths X ∧
      dlookup (segs.foldl (segStep low gs preds) st).confidence_scores X =
        dlookup st.confidence_scores X := by
  induction segs generalizing st with
  | nil => exact ⟨rfl, rfl⟩
  | cons s rest ih =>
      rw [List.foldl_cons]
      have hstep := segStep_preserves_low low gs preds st s X hX (hnc s (by simp))
      have hrest := ih (segStep low gs preds st s)
        (fun s2 h2 => hnc s2 (List.mem_cons_of_mem _ h2))
      exact ⟨hrest.1.trans hstep.1, hrest.2.trans hstep.2⟩

/-! ## Claim C5 -/

/-- Counterexample to C5 as stated: a prediction whose disease name is the
suffixed string Nodule Segmentation with thresholded Low, together with a
segment of class Nodule, puts the low finding Nodule Segmentation into
heatmapPaths: the low set is keyed by prediction disease names while ordinary
segment classes re-enter the maps under their suffixed key. -/
theorem low_finding_reappears_via_suffix_collision :
    "Nodule Segmentation" ∈
        lowSet [⟨"Nodule Segmentation", 0, "Low", none⟩] ∧
      dlookup (selectOverlayArtifacts (fun _ => "d") ⟨[], [], 0⟩
          [⟨"Nodule Segmentation", 0, "Low", none⟩]
          [⟨"Nodule", some (.native "/seg.png")⟩]).heatmap_paths
        "Nodule Segmentation" = some "/seg.png" := by
  constructor
  · simp [lowSet]
  · rfl

/-- Claim C5 as amended: a finding of the low set never appears in
heatmapPaths, in confidenceScores, or in the composited finding set (the
keys handed to the compositor), unless its name collides with the suffixed
key (class plus the Segmentation suffix) of one of the version's segment
classes. -/
theorem low_findings_are_excluded (gs : String → String) (w0 : World)
    (preds : List SelPred) (segs : List SelSeg) (X : String)
    (hX : X ∈ lowSet preds)
    (hnc : ∀ s ∈ segs, X ≠ s.class_name ++ " Segmentation") :
    dlookup (selectOverlayArtifacts gs w0 preds segs).heatmap_paths X = none ∧
    dlookup (selectOverlayArtifacts gs w0 preds segs).confidence_scores X = none ∧
    X ∉ (selectOverlayArtifacts gs w0 preds segs).heatmap_paths.map Prod.fst := by
  unfold selectOverlayArtifacts
  have hpred := predFold_preserves_low preds (lowSet preds) gs
    ⟨w0, [], [], [], none, none, []⟩ X hX
  have hseg := segFold_preserves_low segs (lowSet preds) gs preds
    (preds.foldl (predStep (lowSet preds) gs) ⟨w0, [], [], [], none, none, []⟩) X hX hnc
  have h1 : dlookup (segs.foldl (segStep (lowSet preds) gs preds)
      (preds.foldl (predStep (lowSet preds) gs)
        ⟨w0, [], [], [], none, none, []⟩)).heatmap_paths X = none :=
    (hseg.1.trans hpred.1).trans rfl
  have h2 : dlookup (segs.foldl (segStep (lowSet preds) gs preds)
      (preds.foldl (predStep (lowSet preds) gs)
        ⟨w0, [], [], [], none, none, []⟩)).confidence_scores X = none :=
    (hseg.2.trans hpred.2).trans rfl
  exact ⟨h1, h2, dlookup_none_not_mem h1⟩

/-- Witness for the amended C5: the concrete low finding Nodule is absent
from all the selector's maps when the only segment class is Lung. -/
theorem low_findings_are_excluded_witness :
    dlookup (selectOverlayArtifacts (fun _ => "d") ⟨[], [], 0⟩
        [⟨"Nodule", 0, "Low", none⟩]
        [⟨"Lung", some (.native "/l.png")⟩]).heatmap_paths "Nodule" = none ∧
      dlookup (selectOverlayArtifacts (fun _ => "d") ⟨[], [], 0⟩
        [⟨"Nodule", 0, "Low", none⟩]
        [⟨"Lung", some (.native "/l.png")⟩]).confidence_scores "Nodule" = none ∧
      "Nodule" ∉ (selectOverlayArtifacts (fun _ => "d") ⟨[], [], 0⟩
        [⟨"Nodule", 0, "Low", none⟩]
        [⟨"Lung", some (.native "/l.png")⟩]).heatmap_paths.map Prod.fst :=
  low_findings_are_excluded (fun _ => "d") ⟨[], [], 0⟩
    [⟨"Nodule", 0, "Low", none⟩] [⟨"Lung", some (.native "/l.png")⟩] "Nodule"
    (by simp [lowSet]) (by simp)

/-! ## Lemmas about the lung-mask path and the overlay phase -/

theorem predStep_lung (low : List String) (gs : String → String) (st : OvState)
    (p : SelPred) : (predStep low gs st p).lung_mask_path = st.lung_mask_path := by
  unfold predStep
  split
  · rfl
  split
  · rfl
  split
  · rfl
  split
  · rfl
  · rfl

theorem segStep_lung (low : List String) (gs : String → String) (preds : List SelPred)
    (st : OvState) (s : SelSeg) (h : s.class_name ≠ "Lung") :
    (segStep low gs preds st s).lung_mask_path = st.lung_mask_path := by
  unfold segStep
  split
  · rfl
  split
  · rename_i hT
    exact absurd (by simpa using hT) h
  split
  · rfl
  split
  · rfl
  split
  · rfl
  split
  · split
    · rfl
    split
    · rfl
    split
    · rfl
    · rfl
  · split
    · rfl
    · rfl

theorem predFold_lung (preds2 : List SelPred) (low : List String) (gs : String → String)
    (st : OvState) :
    (preds2.foldl (predStep low gs) st).lung_mask_path = st.lung_mask_path := by
  induction preds2 generalizing st with
  | nil => rfl
  | cons p rest ih =>
      rw [List.foldl_cons, ih (predStep low gs st p), predStep_lung]

theorem segFold_lung (segs : List SelSeg) (low : List String) (gs : String → String)
    (preds : List SelPred) (st : OvState) (h : ∀ s ∈ segs, s.class_name ≠ "Lung") :
    (segs.foldl (segStep low gs preds) st).lung_mask_path = st.lung_mask_path := by
  induction segs generalizing st with
  | nil => rfl
  | cons s rest ih =>
      rw [List.foldl_cons, ih (segStep low gs preds st s)
        (fun s2 h2 => h s2 (List.mem_cons_of_mem _ h2)),
        segStep_lung low gs preds st s (h s (by simp))]

theorem viewSegs_class_mem {db : DB} {c : Nat} {v : String} {s' : SelSeg}
    (h : s' ∈ viewSegs db c v) :
    ∃ s ∈ db.segments, s'.class_name = s.class_name ∧ s.case_id = c ∧
      s.model_version = v := by
  unfold viewSegs at h
  obtain ⟨s, hs, rfl⟩ := List.mem_map.mp h
  have hf := List.of_mem_filter hs
  simp only [Bool.and_eq_true, beq_iff_eq] at hf
  exact ⟨s, List.mem_of_mem_filter hs, rfl, hf.1, hf.2⟩

/-! ## Claim C1 -/

/-- Counterexample to C1 as stated: for a case with a persisted
DiseasePrediction row and no Lung mask, the workflow's overlay phase returns
success false and leaves the store unchanged (zero OverlayHeatmap rows, the
prediction still persisted), but it appends no diagnostic at all: the
returned error list is exactly the incoming one, not extended by an
OverlayUnavailable entry. -/
theorem missing_lung_mask_appends_no_diagnostic :
    (overlayPhase 7 "v3.5.1" "profile3"
        ⟨[⟨7, "Nodule", "v3.5.1", 0, 0, "62%"⟩], [], [], [], []⟩ []
        (some (.native "/raw.png")) .retNone (fun _ => "d") []).errors = [] ∧
    ¬ ((overlayPhase 7 "v3.5.1" "profile3"
        ⟨[⟨7, "Nodule", "v3.5.1", 0, 0, "62%"⟩], [], [], [], []⟩ []
        (some (.native "/raw.png")) .retNone (fun _ => "d") []).errors.length = 1) ∧
    (overlayPhase 7 "v3.5.1" "profile3"
        ⟨[⟨7, "Nodule", "v3.5.1", 0, 0, "62%"⟩], [], [], [], []⟩ []
        (some (.native "/raw.png")) .retNone (fun _ => "d") []).success = false ∧
    (overlayPhase 7 "v3.5.1" "profile3"
        ⟨[⟨7, "Nodule", "v3.5.1", 0, 0, "62%"⟩], [], [], [], []⟩ []
        (some (.native "/raw.png")) .retNone (fun _ => "d") []).db =
      ⟨[⟨7, "Nodule", "v3.5.1", 0, 0, "62%"⟩], [], [], [], []⟩ := by
  refine ⟨rfl, ?_, rfl, rfl⟩
  intro h
  have : (0 : Nat) = 1 := h
  simp at this

/-- Claim C1 as amended: for a case whose profile run persisted
DiseasePrediction rows but no Lung segmentation mask, the overlay phase of
the workflow persists zero OverlayHeatmap rows for the version, returns
success false, appends no diagnostic (the error list is returned unchanged),
and leaves the store — DiseasePrediction rows included — exactly as it
was. -/
theorem missing_lung_mask_fails_without_diagnostic (c : Nat) (v pn : String) (db : DB)
    (fs0 : List Path) (raw : Option FileRef) (comp : CompBehavior)
    (gs : String → String) (errors0 : List String)
    (hnolung : ∀ s ∈ db.segments, s.case_id = c → s.model_version = v →
      s.class_name ≠ "Lung") :
    (overlayPhase c v pn db fs0 raw comp gs errors0).success = false ∧
    (overlayPhase c v pn db fs0 raw comp gs errors0).errors = errors0 ∧
    (overlayPhase c v pn db fs0 raw comp gs errors0).db = db := by
  have hview : ∀ s' ∈ viewSegs db c v, s'.class_name ≠ "Lung" := by
    intro s' h
    obtain ⟨s, hmem, he, hc, hv⟩ := viewSegs_class_mem h
    rw [he]
    exact hnolung s hmem hc hv
  have hlung : (selectOverlayArtifacts gs ⟨fs0, [], 0⟩ (viewPreds db c v)
      (viewSegs db c v)).lung_mask_path = none := by
    unfold selectOverlayArtifacts
    rw [segFold_lung (viewSegs db c v) (lowSet (viewPreds db c v)) gs (viewPreds db c v)
        _ hview,
      predFold_lung (viewPreds db c v) (lowSet (viewPreds db c v)) gs
        ⟨⟨fs0, [], 0⟩, [], [], [], none, none, []⟩]
  rcases hgp : getPath (selectOverlayArtifacts gs ⟨fs0, [], 0⟩ (viewPreds db c v)
      (viewSegs db c v)).w raw with ⟨w1, rp⟩
  have hcore : overlayCore c v pn db fs0 raw comp gs errors0 =
      ⟨false, errors0, db, w1.fs, w1⟩ := by
    unfold overlayCore
    rw [hlung, hgp]
  have hs : (overlayPhase c v pn db fs0 raw comp gs errors0).success =
      (overlayCore c v pn db fs0 raw comp gs errors0).success := rfl
  have he : (overlayPhase c v pn db fs0 raw comp gs errors0).errors =
      (overlayCore c v pn db fs0 raw comp gs errors0).errors := rfl
  have hd : (overlayPhase c v pn db fs0 raw comp gs errors0).db =
      (overlayCore c v pn db fs0 raw comp gs errors0).db := rfl
  rw [hs, he, hd, hcore]
  exact ⟨rfl, rfl, rfl⟩

/-- Witness for the amended C1: the concrete case of the counterexample —
one persisted Nodule prediction, no segments at all — satisfies the
no-Lung-mask hypothesis, and the phase returns success false with the error
list unchanged and the store untouched. -/
theorem missing_lung_mask_fails_without_diagnostic_witness :
    (overlayPhase 7 "v3.5.1" "profile3"
        ⟨[⟨7, "Nodule", "v3.5.1", 0, 0, "62%"⟩], [], [], [], []⟩ []
        (some (.native "/raw.png")) .retNone (fun _ => "d") []).success = false ∧
    (overlayPhase 7 "v3.5.1" "profile3"
        ⟨[⟨7, "Nodule", "v3.5.1", 0, 0, "62%"⟩], [], [], [], []⟩ []
        (some (.native "/raw.png")) .retNone (fun _ => "d") []).errors = [] ∧
    (overlayPhase 7 "v3.5.1" "profile3"
        ⟨[⟨7, "Nodule", "v3.5.1", 0, 0, "62%"⟩], [], [], [], []⟩ []
        (some (.native "/raw.png")) .retNone (fun _ => "d") []).db =
      ⟨[⟨7, "Nodule", "v3.5.1", 0, 0, "62%"⟩], [], [], [], []⟩ :=
  missing_lung_mask_fails_without_diagnostic 7 "v3.5.1" "profile3"
    ⟨[⟨7, "Nodule", "v3.5.1", 0, 0, "62%"⟩], [], [], [], []⟩ []
    (some (.native "/raw.png")) .retNone (fun _ => "d") []
    (by simp)

/-! ## Lemmas about TempFileManager cleanup -/

theorem cleanupFiles_subset (tmps : List Path) :
    ∀ fs q, q ∈ cleanupFiles tmps fs → q ∈ fs := by
  induction tmps with
  | nil => intro fs q h; simpa [cleanupFiles] using h
  | cons p rest ih =>
      intro fs q h
      simp only [cleanupFiles] at h
      have h2 := ih _ q h
      by_cases hc : fs.contains p
      · rw [if_pos hc] at h2
        exact List.mem_of_mem_filter h2
      · rwa [if_neg hc] at h2

theorem cleanupFiles_not_mem (tmps : List Path) (p : Path) (h : p ∈ tmps) :
    ∀ fs, p ∉ cleanupFiles tmps fs := by
  induction tmps with
  | nil => simp at h
  | cons a rest ih =>
      intro fs hmem
      simp only [cleanupFiles] at hmem
      rcases List.mem_cons.mp h with h1 | h1
      · have hsub := cleanupFiles_subset rest _ p hmem
        by_cases hc : fs.contains a
        · rw [if_pos hc] at hsub
          have := List.of_mem_filter hsub
          rw [h1] at this
          simp at this
        · rw [if_neg hc] at hsub
          apply hc
          rw [← h1]
          exact mem_imp_contains hsub
      · exact ih h1 _ hmem

/-! ## Claim C9 -/

/-- Claim C9: on every exit path of the overlay phase of a profile workflow
invocation — compositing succeeded, no lung mask or raw image was available,
the compositor returned None, or the compositor raised — the
TempFileManager's cleanup runs last, and afterwards no temp file it had
recorded still exists; and cleanup itself removes every recorded file from
any filesystem state, tolerating files that are already missing. -/
theorem temp_files_cleaned_on_every_exit (c : Nat) (v pn : String) (db : DB)
    (fs0 : List Path) (raw : Option FileRef) (comp : CompBehavior)
    (gs : String → String) (errors0 : List String) (p : Path)
    (hp : p ∈ (overlayPhase c v pn db fs0 raw comp gs errors0).recorded) :
    p ∉ (overlayPhase c v pn db fs0 raw comp gs errors0).fs ∧
    (∀ (tmps fs : List Path) (q : Path), q ∈ tmps → q ∉ cleanupFiles tmps fs) := by
  constructor
  · have hfs : (overlayPhase c v pn db fs0 raw comp gs errors0).fs =
        cleanupFiles (overlayCore c v pn db fs0 raw comp gs errors0).w.tempFiles
          (overlayCore c v pn db fs0 raw comp gs errors0).fsPre := rfl
    have hrec : (overlayPhase c v pn db fs0 raw comp gs errors0).recorded =
        (overlayCore c v pn db fs0 raw comp gs errors0).w.tempFiles := rfl
    rw [hfs]
    exact cleanupFiles_not_mem _ p (hrec ▸ hp) _
  · intro tmps fs q hq
    exact cleanupFiles_not_mem tmps q hq fs

/-- Witness for C9: a concrete run whose Lung mask lives in remote storage,
so the manager records one downloaded temp file; after the phase the
recorded file no longer exists. -/
theorem temp_files_cleaned_on_every_exit_witness :
    "/tmp/tmp0.png" ∈ (overlayPhase 7 "v3.5.1" "profile3"
        ⟨[], [], [⟨7, "Lung", "v3.5.1", some (.remote "s3-lung")⟩], [], []⟩ []
        (some (.native "/raw.png")) .retNone (fun _ => "d") []).recorded ∧
    "/tmp/tmp0.png" ∉ (overlayPhase 7 "v3.5.1" "profile3"
        ⟨[], [], [⟨7, "Lung", "v3.5.1", some (.remote "s3-lung")⟩], [], []⟩ []
        (some (.native "/raw.png")) .retNone (fun _ => "d") []).fs := by
  have hm : "/tmp/tmp0.png" ∈ (overlayPhase 7 "v3.5.1" "profile3"
      ⟨[], [], [⟨7, "Lung", "v3.5.1", some (.remote "s3-lung")⟩], [], []⟩ []
      (some (.native "/raw.png")) .retNone (fun _ => "d") []).recorded := by
    simp [overlayPhase, overlayCore, selectOverlayArtifacts, viewPreds, viewSegs,
      lowSet, segStep, getPath, compOutWorld, freshTempPath]
    rfl
  exact ⟨hm, (temp_files_cleaned_on_every_exit 7 "v3.5.1" "profile3"
    ⟨[], [], [⟨7, "Lung", "v3.5.1", some (.remote "s3-lung")⟩], [], []⟩ []
    (some (.native "/raw.png")) .retNone (fun _ => "d") [] "/tmp/tmp0.png" hm).1⟩

/-! ## Claim C6 -/

/-- Claim C6: after the pipeline runs both configured profiles for a case,
the case's process-success flag equals the logical AND (the conjunction over
the list) of the per-profile workflow success outcomes. -/
theorem pipeline_success_is_and_of_profile_outcomes (c : Nat) (case0 : CaseRow)
    (db : DB) (fs : List Path) (raw : Option FileRef) (gs : String → String)
    (p3 p4 : ProfileRun) :
    (runPipeline c case0 db fs raw gs p3 p4).1.success_process =
      (pipelineProfileSuccesses c db fs raw gs p3 p4).all id := by
  simp [runPipeline, pipelineProfileSuccesses, List.all]

end MyInspectra
